import Mathlib

/-!
Verification of the takeout photo pipeline (process_photos.py,
recover_from_json.py, organize_by_year_month.py) against its
natural-language specification.

Strings are modelled as lists of characters (`Str`); Python string
primitives (`split`, `replace`, `ljust`, `in`, `endswith`, `lower`,
`sorted`) are embedded as executable Lean functions below, and each
script-level function keeps its source name.
-/

/-- Python strings, modelled as lists of characters. -/
abbrev Str := List Char

/-- Python `s.split(sep)` for a single-character separator: splits at every
occurrence, keeping empty segments (so `"".split(" ") == [""]`). -/
def pySplit (sep : Char) : Str → List Str
  | [] => [[]]
  | c :: rest =>
    if c = sep then [] :: pySplit sep rest
    else
      match pySplit sep rest with
      | [] => [[c]]
      | h :: t => (c :: h) :: t

/-- Python `s.replace(old, new)` for single characters. -/
def pyReplaceChar (old new : Char) (s : Str) : Str :=
  s.map fun c => if c = old then new else c

/-- Python `s.ljust(width, fill)`. -/
def pyLjust (s : Str) (width : Nat) (fill : Char) : Str :=
  s ++ List.replicate (width - s.length) fill

/-- Python ASCII `str.lower()` (the repository only lowercases ASCII names). -/
def pyLower (s : Str) : Str :=
  s.map Char.toLower

/-- Python `needle in hay` substring containment. -/
def pyIn (needle : Str) : Str → Bool
  | [] => needle.isPrefixOf []
  | c :: rest => needle.isPrefixOf (c :: rest) || pyIn needle rest

/-- Python `s.endswith(suffix)`. -/
def pyEndsWith (sfx s : Str) : Bool :=
  sfx.isSuffixOf s

/-- Python `s.isdigit()` for ASCII digits: nonempty and all digits. -/
def pyIsDigit (s : Str) : Bool :=
  !s.isEmpty && s.all Char.isDigit

/-- os.path.basename / pathlib `.name`: the part after the last slash. -/
def pathBasename (p : Str) : Str :=
  ((p.reverse).takeWhile (fun c => c ≠ '/')).reverse

/-- Directory part of a path (everything before the last slash). -/
def pathDirname (p : Str) : Str :=
  p.take (p.length - (pathBasename p).length - 1)

/-- Path join `dir / name` as used by the scripts. -/
def pathJoin (dir name : Str) : Str :=
  dir ++ '/' :: name

/-- Index of the last dot in a name, if any. -/
def lastDotIdx (name : Str) : Option Nat :=
  match name.reverse.findIdx? (fun c => c = '.') with
  | some j => some (name.length - 1 - j)
  | none => none

/-- pathlib `.stem`: the final component without its last suffix; a leading
dot or a trailing dot does not start a suffix. -/
def pathStem (p : Str) : Str :=
  let b := pathBasename p
  match lastDotIdx b with
  | some i => if 0 < i ∧ i < b.length - 1 then b.take i else b
  | none => b

/-- pathlib `.suffix`: the last dot-suffix of the final component, with the
same leading/trailing-dot conventions as `pathStem`. -/
def pathSuffix (p : Str) : Str :=
  let b := pathBasename p
  match lastDotIdx b with
  | some i => if 0 < i ∧ i < b.length - 1 then b.drop i else []
  | none => []

/-- os.path.splitext on a whole path: split at the last dot of the basename
provided some earlier character of the basename is not a dot. -/
def splitext (p : Str) : Str × Str :=
  let b := pathBasename p
  match lastDotIdx b with
  | some i =>
    if (b.take i).any (fun c => c ≠ '.') then
      (p.take (p.length - (b.length - i)), p.drop (p.length - (b.length - i)))
    else (p, [])
  | none => (p, [])

/-!
Timestamp resolution, from process_photos.py.
-/

/-- Stage 1 of the resolver (process_photos.py, main, lines 159-168): split
the exiftool CreateDate on the single space, replace colons with dashes in
both halves, join with an underscore, and append a two-digit sub-second
suffix when the sub-second string is nonempty.  A split that does not give
exactly two parts raises in the source, modelled by `none`. -/
def exif_base_name (exifCreateDate subSecond : Str) : Option Str :=
  match pySplit ' ' exifCreateDate with
  | [datePart, timePart] =>
    let dateString := pyReplaceChar ':' '-' datePart
    let timeString := pyReplaceChar ':' '-' timePart
    let base := dateString ++ '_' :: timeString
    if subSecond.isEmpty then some base
    else some (base ++ '-' :: pyLjust (subSecond.take 2) 2 '0')
  | _ => none

/-- Take exactly `n` ASCII digits off the front of `s`. -/
def takeDigits : Nat → Str → Option (Str × Str)
  | 0, s => some ([], s)
  | _ + 1, [] => none
  | n + 1, c :: rest =>
    if c.isDigit then
      match takeDigits n rest with
      | some (ds, r) => some (c :: ds, r)
      | none => none
    else none

/-- Consume one leading separator character when present. -/
def skipSep (seps : List Char) (s : Str) : Str :=
  match s with
  | [] => []
  | c :: rest => if c ∈ seps then rest else c :: rest

/-- Separator class of the date regex, `[-._]`. -/
def dateSeps : List Char := ['-', '.', '_']

/-- Separator class of the optional time block, `[_-]`. -/
def timeSeps : List Char := ['_', '-']

/-- process_photos.py `parse_date_from_filename` /
`FILENAME_DATE_REGEX = ^([0-9]{4})[-._]?([0-9]{2})[-._]?([0-9]{2})(?:[_-]?([0-9]{6}))?`,
matched from the start of the stem, with trailing text ignored.  Since no
separator character is a digit, the regex is deterministic: each optional
separator is consumed exactly when present, and the optional time group
matches exactly when six digits follow the (optionally consumed) time
separator.  When the time group is absent the time defaults to 00:00:00. -/
def parse_date_from_filename (s : Str) :
    Option (Str × Str × Str × Str × Str × Str) :=
  match takeDigits 4 s with
  | none => none
  | some (year, r1) =>
    match takeDigits 2 (skipSep dateSeps r1) with
    | none => none
    | some (month, r2) =>
      match takeDigits 2 (skipSep dateSeps r2) with
      | none => none
      | some (day, r3) =>
        match takeDigits 6 (skipSep timeSeps r3) with
        | some (t, _) =>
          some (year, month, day, t.take 2, (t.drop 2).take 2, (t.drop 4).take 2)
        | none =>
          some (year, month, day, "00".data, "00".data, "00".data)

/-- The fallback branch of process_photos.py main (lines 174-181): format
the parsed components verbatim as `YYYY-MM-DD_HH-MM-SS`. -/
def filename_base_name (stem : Str) : Option Str :=
  match parse_date_from_filename stem with
  | some (year, month, day, hh, mm, ss) =>
    some ((year ++ '-' :: month ++ '-' :: day) ++
          '_' :: (hh ++ '-' :: mm ++ '-' :: ss))
  | none => none

/-!
Unique path allocation (`make_unique_path`), identical in
process_photos.py (lines 126-141) and organize_by_year_month.py
(lines 74-90).  The filesystem visible to the allocator is a finite set of
existing paths plus a same-underlying-file oracle for `Path.samefile`.
-/

/-- The filesystem state the allocator can observe: the set of existing
paths and the `samefile` predicate (same underlying inode). -/
structure FsView where
  files : List Str
  same : Str → Str → Bool

/-- Existence check over the modelled filesystem. -/
def pathExists (files : List Str) (p : Str) : Bool :=
  files.contains p

/-- Decimal digit character, as produced by Python `str(k)`. -/
def digitChar : Nat → Char
  | 0 => '0' | 1 => '1' | 2 => '2' | 3 => '3' | 4 => '4'
  | 5 => '5' | 6 => '6' | 7 => '7' | 8 => '8' | _ => '9'

/-- Numeric value of a decimal digit character. -/
def digitVal (c : Char) : Nat :=
  c.toNat - 48

/-- Decimal rendering with explicit fuel (structural recursion). -/
def natToDigitsAux (fuel n : Nat) : Str :=
  match fuel with
  | 0 => []
  | fuel + 1 =>
    if n < 10 then [digitChar n]
    else natToDigitsAux fuel (n / 10) ++ [digitChar (n % 10)]

/-- Python `str(k)` for a natural number. -/
def natToDigits (n : Nat) : Str :=
  natToDigitsAux (n + 1) n

/-- The candidate `dir/base(k)ext` probed by the allocator's loop. -/
def numberedPath (dir base ext : Str) (k : Nat) : Str :=
  pathJoin dir (base ++ '(' :: natToDigits k ++ ')' :: ext)

/-- The while-loop of `make_unique_path`: starting at index `k`, return the
first index whose numbered candidate does not exist.  The loop in the
source is unbounded; `fuel` is an upper bound on the number of probes,
adequate as soon as some index in the probed window is free. -/
def probeIndex (files : List Str) (dir base ext : Str) : Nat → Nat → Nat
  | 0, k => k
  | fuel + 1, k =>
    if pathExists files (numberedPath dir base ext k) then
      probeIndex files dir base ext fuel (k + 1)
    else k

/-- `make_unique_path(destination_directory, base_name, extension,
original_file_path)`: return `dir/base ++ ext` when it does not exist or is
the same underlying file as the original; otherwise the first free
`dir/base(k)ext` for k = 1, 2, ....  A window of `files.length + 1` probes
always contains a free index (proved below), so the fuel is sufficient. -/
def make_unique_path (fs : FsView) (dir base ext : Str) (orig : Option Str) : Str :=
  let candidate := pathJoin dir (base ++ ext)
  let sameAsOrig := match orig with
    | some o => fs.same candidate o
    | none => false
  if !pathExists fs.files candidate || sameAsOrig then candidate
  else numberedPath dir base ext
    (probeIndex fs.files dir base ext (fs.files.length + 1) 1)

/-!
Sidecar matching and metadata recovery, from recover_from_json.py.
-/

/-- Does `re.sub(r'\([^)]*\)$', '', s)` match at this position?  True when
the remainder starts with a parenthesis, ends (at the very end of the
string) with a closing parenthesis, and has no closing parenthesis in
between. -/
def parenAtHere : Str → Bool
  | '(' :: rest => !rest.isEmpty && rest.getLast? == some ')' && rest.dropLast.all (fun c => c ≠ ')')
  | _ => false

/-- `re.sub(r'\([^)]*\)$', '', base_name)`: delete the leftmost trailing
parenthesized group, or return the string unchanged when none matches. -/
def stripParenSuffix : Str → Str
  | [] => []
  | c :: rest => if parenAtHere (c :: rest) then [] else c :: stripParenSuffix rest

/-- One containment test of the matcher: is `needle` a substring of the
lowercased basename of candidate sidecar path `c`? -/
def sidecarHit (needle c : Str) : Bool :=
  pyIn needle (pyLower (pathBasename c))

/-- The sidecar matcher (recover_from_json.py, main, lines 136-171): the
media base name is the lowercased basename without extension; four
normalization strategies are tried in order (raw, parenthesized-suffix
stripped, "-edited" stripped, gif-only trailing-character strip), each
tested by case-insensitive substring containment against every candidate,
and the first strategy with a hit returns its first matching candidate. -/
def matchSidecar (mediaPath : Str) (jsonPaths : List Str) : Option Str :=
  let base_name := pyLower (splitext (pathBasename mediaPath)).1
  match jsonPaths.find? (sidecarHit base_name) with
  | some j => some j
  | none =>
    match jsonPaths.find? (sidecarHit (stripParenSuffix base_name)) with
    | some j => some j
    | none =>
      let afterEdited :=
        if pyEndsWith ("-edited".data) base_name then
          jsonPaths.find? (sidecarHit (base_name.take (base_name.length - 7)))
        else none
      match afterEdited with
      | some j => some j
      | none =>
        if pyEndsWith (".gif".data) (pyLower mediaPath) &&
            pyEndsWith ("ani".data) base_name then
          jsonPaths.find? (sidecarHit base_name.dropLast)
        else none

/-- MIME_TYPE_TO_EXTENSION_MAP of recover_from_json.py. -/
def mimeExtMap : List (Str × Str) :=
  [("image/jpeg".data, "jpg".data), ("image/png".data, "png".data),
   ("image/webp".data, "webp".data), ("image/heic".data, "heic".data),
   ("image/gif".data, "gif".data), ("video/mp4".data, "mp4".data),
   ("video/quicktime".data, "mov".data), ("video/x-msvideo".data, "avi".data),
   ("video/3gpp".data, "3gp".data), ("video/mpeg".data, "mpg".data),
   ("video/x-m4v".data, "m4v".data)]

/-- External-tool oracles and scanned file lists of one recovery run. -/
structure RecEnv where
  mime : Str → Option Str
  jq : Str → Option Str
  isFile : Str → Bool
  jsonPaths : List Str
  mediaPaths : List Str

/-- Log lines of recover_from_json.py, as structured records. -/
inductive RecLog where
  | mimeFailed (p : Str)
  | extRenamed (old new : Str)
  | noMatch (p : Str)
  | jqFailed (j : Str)
  | invalidTimestamp (j : Str)
deriving DecidableEq

/-- Extension correction (recover_from_json.py lines 117-134): detect the
MIME type, map it to a desired extension defaulting to the current one,
and rename when they differ; a MIME detection failure skips the file. -/
def recoverExtCorrect (env : RecEnv) (p : Str) : Option Str :=
  match env.mime p with
  | none => none
  | some mt =>
    let originalExt := pyLower ((splitext p).2.dropWhile (fun c => c = '.'))
    let desiredExt := pyLower (((mimeExtMap.lookup mt).getD originalExt))
    if originalExt ≠ desiredExt then some ((splitext p).1 ++ '.' :: desiredExt)
    else some p

/-- One iteration of the recovery loop (recover_from_json.py lines
111-202), accumulating the `used_json_file_paths` set (as a
duplicate-free list) and the log. -/
def recStep (env : RecEnv) (acc : List Str × List RecLog) (mp : Str) :
    List Str × List RecLog :=
  match recoverExtCorrect env mp with
  | none => (acc.1, acc.2 ++ [RecLog.mimeFailed mp])
  | some p =>
    match matchSidecar p env.jsonPaths with
    | none => (acc.1, acc.2 ++ [RecLog.noMatch p])
    | some j =>
      if !env.isFile j then (acc.1, acc.2 ++ [RecLog.noMatch p])
      else
        match env.jq j with
        | none => (acc.1, acc.2 ++ [RecLog.jqFailed j])
        | some ts =>
          if !pyIsDigit ts then (acc.1, acc.2 ++ [RecLog.invalidTimestamp j])
          else (if acc.1.contains j then acc.1 else j :: acc.1, acc.2)

/-- The whole per-media loop of recover_from_json.py main. -/
def recoverRun (env : RecEnv) : List Str × List RecLog :=
  env.mediaPaths.foldl (recStep env) ([], [])

/-- The `used_json_file_paths` set accumulated by a run. -/
def recoverUsed (env : RecEnv) : List Str :=
  (recoverRun env).1

/-- Python string comparison (lexicographic by character code). -/
def lexLe : Str → Str → Bool
  | [], _ => true
  | _ :: _, [] => false
  | a :: as, b :: bs => if a = b then lexLe as bs else decide (a < b)

/-- Python `sorted` on a duplicate-free collection of strings. -/
def pySorted (l : List Str) : List Str :=
  List.insertionSort (fun a b => lexLe a b = true) l

/-- The consolidation loop (recover_from_json.py lines 204-207): move each
used JSON, in sorted order, to `done/<basename>`; the destination is not
collision-checked. -/
def consolidationMoves (done : Str) (used : List Str) : List (Str × Str) :=
  (pySorted used).map fun j => (j, pathJoin done (pathBasename j))

/-- A filesystem with file identities: existing paths paired with an
identifier for the underlying content. -/
abbrev Fs2 := List (Str × Nat)

/-- Look up the content at a path. -/
def lookupFs (fs : Fs2) (p : Str) : Option Nat :=
  fs.lookup p

/-- `os.replace(src, dst)`: overwrite `dst` (if present) with the file at
`src`, removing `src`. -/
def osReplace (fs : Fs2) (m : Str × Str) : Fs2 :=
  match lookupFs fs m.1 with
  | some v => (m.2, v) :: fs.filter (fun e => !(e.1 == m.1) && !(e.1 == m.2))
  | none => fs

/-- Apply a list of replacing moves in order. -/
def applyMoves (fs : Fs2) (ms : List (Str × Str)) : Fs2 :=
  ms.foldl osReplace fs

/-- The effect of the consolidation step on the filesystem. -/
def consolidate (done : Str) (used : List Str) (fs : Fs2) : Fs2 :=
  applyMoves fs (consolidationMoves done used)

/-!
The per-file pipeline of process_photos.py main (lines 151-197).
-/

/-- Fixed configuration of one run plus failure oracles: where unmatched
files go, the `samefile` predicate, and which renames raise. -/
structure PhotoEnv where
  unmatchedDir : Str
  same : Str → Str → Bool
  renameFails : Str → Str → Bool

/-- Error log records of process_photos.py. -/
inductive PhotoErr where
  | exifParse (filename : Str)
  | unmatchedMove (filename : Str)
deriving DecidableEq

/-- Mutable run state: existing files plus the three logs. -/
structure PState where
  files : List Str
  matchedLog : List (Str × Str)
  unmatchedLog : List (Str × Str)
  errorLog : List PhotoErr
deriving DecidableEq

/-- One discovered media file together with the answer the exiftool oracle
gives for it: the CreateDate line (absent on failure or empty output) and
the sub-second line. -/
structure MediaFile where
  path : Str
  exifDate : Option Str
  subSec : Str
deriving DecidableEq

/-- The uncaught exception of the in-place rename. -/
inductive PFailure where
  | renameRaised (src dst : Str)
deriving DecidableEq

/-- A successful rename: the old path disappears, the new one appears. -/
def fsRename (files : List Str) (old new : Str) : List Str :=
  new :: files.erase old

/-- Step 3 of the loop (lines 192-197): allocate a unique path in the
file's own directory; when it differs from the current path, rename —
with no surrounding try/except, so a failing rename raises — and append a
Matched record; when equal, do nothing. -/
def finishRename (env : PhotoEnv) (st : PState) (mf : MediaFile) (newBase : Str) :
    Except PFailure PState :=
  let ext := pyLower (pathSuffix mf.path)
  let parent := pathDirname mf.path
  let newPath := make_unique_path ⟨st.files, env.same⟩ parent newBase ext (some mf.path)
  if newPath ≠ mf.path then
    if env.renameFails mf.path newPath then
      Except.error (PFailure.renameRaised mf.path newPath)
    else
      Except.ok { st with
        files := fsRename st.files mf.path newPath,
        matchedLog := st.matchedLog ++ [(pathBasename mf.path, pathBasename newPath)] }
  else Except.ok st

/-- The unmatched branch (lines 183-190): move into the unmatched folder
inside try/except, logging an Unmatched record on success and an Error
record on failure; either way the loop continues. -/
def moveUnmatched (env : PhotoEnv) (st : PState) (mf : MediaFile) :
    Except PFailure PState :=
  let stem := pathStem mf.path
  let ext := pyLower (pathSuffix mf.path)
  let newPath := make_unique_path ⟨st.files, env.same⟩ env.unmatchedDir stem ext none
  if env.renameFails mf.path newPath then
    Except.ok { st with
      errorLog := st.errorLog ++ [PhotoErr.unmatchedMove (pathBasename mf.path)] }
  else
    Except.ok { st with
      files := fsRename st.files mf.path newPath,
      unmatchedLog := st.unmatchedLog ++ [(pathBasename mf.path, pathBasename newPath)] }

/-- Step 2 of the loop (lines 174-190): filename fallback, else unmatched. -/
def fallbackStep (env : PhotoEnv) (st : PState) (mf : MediaFile) :
    Except PFailure PState :=
  match filename_base_name (pathStem mf.path) with
  | some base => finishRename env st mf base
  | none => moveUnmatched env st mf

/-- Processing of one media file (loop body, lines 151-197): stage 1 uses
the EXIF CreateDate when the oracle returned a nonempty string; a stage-1
parse failure logs an error and falls through to the filename stage. -/
def processOne (env : PhotoEnv) (st : PState) (mf : MediaFile) :
    Except PFailure PState :=
  match mf.exifDate with
  | some d =>
    if d.isEmpty then fallbackStep env st mf
    else
      match exif_base_name d mf.subSec with
      | some base => finishRename env st mf base
      | none =>
        fallbackStep env
          { st with errorLog := st.errorLog ++ [PhotoErr.exifParse (pathBasename mf.path)] }
          mf
  | none => fallbackStep env st mf

/-- The whole loop: any exception of `processOne` propagates and aborts the
remaining files, exactly as an uncaught Python exception leaves main. -/
def processAll (env : PhotoEnv) : PState → List MediaFile → Except PFailure PState
  | st, [] => Except.ok st
  | st, mf :: rest =>
    match processOne env st mf with
    | Except.ok st' => processAll env st' rest
    | Except.error e => Except.error e

/-- The resolver in isolation: the base name `processOne` renames to, when
the file resolves at all (stage 1, else stage 2). -/
def resolveName (mf : MediaFile) : Option Str :=
  match mf.exifDate with
  | some d =>
    if d.isEmpty then filename_base_name (pathStem mf.path)
    else
      match exif_base_name d mf.subSec with
      | some base => some base
      | none => filename_base_name (pathStem mf.path)
  | none => filename_base_name (pathStem mf.path)

/-!
Helper lemmas about the string primitives.
-/

/-- A string of exactly `n` ASCII digits. -/
def digitStr (n : Nat) (s : Str) : Prop :=
  s.length = n ∧ ∀ c ∈ s, c.isDigit = true

/-- An optional single separator drawn from `seps`. -/
def optSep (seps : List Char) (s : Str) : Prop :=
  s = [] ∨ ∃ c, s = [c] ∧ c ∈ seps

/-- Value of a digit string read back as a decimal number. -/
def digitsVal (s : Str) : Nat :=
  s.foldl (fun a c => 10 * a + digitVal c) 0

/-- Source of the last move in `ms` whose destination is `q`, following
the left-to-right application order of the consolidation loop. -/
def lastWriteSrc (ms : List (Str × Str)) (q : Str) : Option Str :=
  ms.foldl (fun acc m => if m.2 = q then some m.1 else acc) none

theorem digit_ne_colon {c : Char} (h : c.isDigit = true) : c ≠ ':' := by
  intro hc; subst hc; exact absurd h (by decide)

theorem digit_ne_space {c : Char} (h : c.isDigit = true) : c ≠ ' ' := by
  intro hc; subst hc; exact absurd h (by decide)

theorem pySplit_no_sep {sep : Char} :
    ∀ {xs : Str}, (∀ c ∈ xs, c ≠ sep) → pySplit sep xs = [xs] := by
  intro xs
  induction xs with
  | nil => intro _; rfl
  | cons c rest ih =>
    intro h
    have hc : c ≠ sep := h c (List.mem_cons_self c rest)
    have hr := ih fun x hx => h x (List.mem_cons_of_mem c hx)
    simp [pySplit, hc, hr]

theorem pySplit_append {sep : Char} :
    ∀ {xs ys : Str}, (∀ c ∈ xs, c ≠ sep) →
      pySplit sep (xs ++ sep :: ys) = xs :: pySplit sep ys := by
  intro xs
  induction xs with
  | nil => intro ys _; simp [pySplit]
  | cons c rest ih =>
    intro ys h
    have hc : c ≠ sep := h c (List.mem_cons_self c rest)
    have hr := @ih ys fun x hx => h x (List.mem_cons_of_mem c hx)
    simp only [List.cons_append, pySplit, if_neg hc, List.append_eq]
    rw [hr]

theorem pyReplaceChar_skips {old new : Char} :
    ∀ {s : Str}, (∀ c ∈ s, c ≠ old) → pyReplaceChar old new s = s := by
  intro s
  induction s with
  | nil => intro _; rfl
  | cons c rest ih =>
    intro h
    have hc : c ≠ old := h c (List.mem_cons_self c rest)
    have hr := ih fun x hx => h x (List.mem_cons_of_mem c hx)
    simp only [pyReplaceChar] at hr ⊢
    simp [hc, hr]

theorem pyReplaceChar_append (old new : Char) (a b : Str) :
    pyReplaceChar old new (a ++ b) =
      pyReplaceChar old new a ++ pyReplaceChar old new b := by
  simp [pyReplaceChar]

theorem digit_segments_no_space (a b c : Str)
    (ha : ∀ x ∈ a, x.isDigit = true) (hb : ∀ x ∈ b, x.isDigit = true)
    (hc : ∀ x ∈ c, x.isDigit = true) :
    ∀ x ∈ a ++ ':' :: b ++ ':' :: c, x ≠ ' ' := by
  intro x hx
  simp only [List.mem_append, List.mem_cons] at hx
  rcases hx with (h | h | h) | h | h
  · exact digit_ne_space (ha x h)
  · subst h; decide
  · exact digit_ne_space (hb x h)
  · subst h; decide
  · exact digit_ne_space (hc x h)

/-!
C4: resolution of a well-formed embedded timestamp.
-/

/-- C4: for a media file whose metadata read returns a timestamp of the
form YYYY:MM:DD HH:MM:SS, the resolved base name is YYYY-MM-DD_HH-MM-SS,
with a "-SS" suffix appended iff the sub-second string is nonempty, SS
being its first two characters right-padded with "0" to length two. -/
theorem c4_exif_timestamp_base_name
    (p sub yy mo dd hh mi ss : Str)
    (hy : digitStr 4 yy) (hmo : digitStr 2 mo) (hdd : digitStr 2 dd)
    (hhh : digitStr 2 hh) (hmi : digitStr 2 mi) (hss : digitStr 2 ss) :
    resolveName ⟨p, some (yy ++ ':' :: mo ++ ':' :: dd ++ ' ' :: hh ++ ':' :: mi ++ ':' :: ss), sub⟩ =
      some (((yy ++ '-' :: mo ++ '-' :: dd) ++ '_' :: (hh ++ '-' :: mi ++ '-' :: ss)) ++
        (if sub.isEmpty then [] else '-' :: pyLjust (sub.take 2) 2 '0')) := by
  obtain ⟨hylen, hydig⟩ := hy
  have hyne : yy ≠ [] := by
    intro hnil; rw [hnil] at hylen; exact absurd hylen (by decide)
  have hempty :
      (yy ++ ':' :: mo ++ ':' :: dd ++ ' ' :: hh ++ ':' :: mi ++ ':' :: ss).isEmpty = false := by
    cases yy with
    | nil => exact absurd rfl hyne
    | cons a t => rfl
  have hnospace : ∀ c ∈ yy ++ ':' :: mo ++ ':' :: dd, c ≠ ' ' :=
    digit_segments_no_space yy mo dd hydig hmo.2 hdd.2
  have hnospace2 : ∀ c ∈ hh ++ ':' :: mi ++ ':' :: ss, c ≠ ' ' :=
    digit_segments_no_space hh mi ss hhh.2 hmi.2 hss.2
  have hassoc :
      yy ++ ':' :: mo ++ ':' :: dd ++ ' ' :: hh ++ ':' :: mi ++ ':' :: ss =
        (yy ++ ':' :: mo ++ ':' :: dd) ++ ' ' :: (hh ++ ':' :: mi ++ ':' :: ss) := by
    simp [List.append_assoc]
  have hsplit :
      pySplit ' ' (yy ++ ':' :: mo ++ ':' :: dd ++ ' ' :: hh ++ ':' :: mi ++ ':' :: ss) =
        [yy ++ ':' :: mo ++ ':' :: dd, hh ++ ':' :: mi ++ ':' :: ss] := by
    rw [hassoc, pySplit_append hnospace, pySplit_no_sep hnospace2]
  have hrepl1 :
      pyReplaceChar ':' '-' (yy ++ ':' :: mo ++ ':' :: dd) = yy ++ '-' :: mo ++ '-' :: dd := by
    have h1 : pyReplaceChar ':' '-' yy = yy :=
      pyReplaceChar_skips fun c hc => digit_ne_colon (hydig c hc)
    have h2 : pyReplaceChar ':' '-' mo = mo :=
      pyReplaceChar_skips fun c hc => digit_ne_colon (hmo.2 c hc)
    have h3 : pyReplaceChar ':' '-' dd = dd :=
      pyReplaceChar_skips fun c hc => digit_ne_colon (hdd.2 c hc)
    simp only [pyReplaceChar, List.map_append, List.map_cons] at *
    simp [h1, h2, h3]
  have hrepl2 :
      pyReplaceChar ':' '-' (hh ++ ':' :: mi ++ ':' :: ss) = hh ++ '-' :: mi ++ '-' :: ss := by
    have h1 : pyReplaceChar ':' '-' hh = hh :=
      pyReplaceChar_skips fun c hc => digit_ne_colon (hhh.2 c hc)
    have h2 : pyReplaceChar ':' '-' mi = mi :=
      pyReplaceChar_skips fun c hc => digit_ne_colon (hmi.2 c hc)
    have h3 : pyReplaceChar ':' '-' ss = ss :=
      pyReplaceChar_skips fun c hc => digit_ne_colon (hss.2 c hc)
    simp only [pyReplaceChar, List.map_append, List.map_cons] at *
    simp [h1, h2, h3]
  simp only [resolveName, hempty, Bool.false_eq_true, if_false, exif_base_name, hsplit,
    hrepl1, hrepl2]
  cases hsub : sub.isEmpty <;> simp [hsub]

/-- Witness for C4 at the spec's own example: sub-second "789" gives the
suffix "-78". -/
theorem c4_exif_timestamp_base_name_witness :
    resolveName ⟨"/t/photo.jpg".data,
      some ("2023:05:06 12:34:56".data), "789".data⟩ =
      some ("2023-05-06_12-34-56-78".data) := by
  have h := c4_exif_timestamp_base_name ("/t/photo.jpg".data) ("789".data)
    ("2023".data) ("05".data) ("06".data) ("12".data) ("34".data) ("56".data)
    (by constructor <;> decide) (by constructor <;> decide) (by constructor <;> decide)
    (by constructor <;> decide) (by constructor <;> decide) (by constructor <;> decide)
  rw [show ("2023:05:06 12:34:56".data :
      Str) = ("2023".data ++ ':' :: "05".data ++ ':' :: "06".data ++
      ' ' :: "12".data ++ ':' :: "34".data ++ ':' :: "56".data) from rfl]
  rw [h]
  rfl

/-!
C8 and C3: the filename fallback stage.
-/

theorem digit_notin_dateSeps {c : Char} (h : c.isDigit = true) : c ∉ dateSeps := by
  intro hm
  simp only [dateSeps, List.mem_cons, List.not_mem_nil, or_false] at hm
  rcases hm with rfl | rfl | rfl <;> exact absurd h (by decide)

theorem digit_notin_timeSeps {c : Char} (h : c.isDigit = true) : c ∉ timeSeps := by
  intro hm
  simp only [timeSeps, List.mem_cons, List.not_mem_nil, or_false] at hm
  rcases hm with rfl | rfl <;> exact absurd h (by decide)

theorem takeDigits_exact :
    ∀ (ds r : Str), (∀ c ∈ ds, c.isDigit = true) →
      takeDigits ds.length (ds ++ r) = some (ds, r) := by
  intro ds
  induction ds with
  | nil => intro r _; rfl
  | cons c t ih =>
    intro r h
    have hc : c.isDigit = true := h c (List.mem_cons_self c t)
    have ht := ih r fun x hx => h x (List.mem_cons_of_mem c hx)
    simp [takeDigits, hc, ht]

theorem takeDigits_sound :
    ∀ {n : Nat} {s ds r : Str}, takeDigits n s = some (ds, r) →
      s = ds ++ r ∧ ds.length = n ∧ ∀ c ∈ ds, c.isDigit = true := by
  intro n
  induction n with
  | zero =>
    intro s ds r h
    simp only [takeDigits, Option.some.injEq, Prod.mk.injEq] at h
    obtain ⟨h1, h2⟩ := h
    subst h1
    subst h2
    exact ⟨rfl, rfl, fun c hc => absurd hc (List.not_mem_nil c)⟩
  | succ m ih =>
    intro s ds r h
    cases s with
    | nil => exact absurd h (by simp [takeDigits])
    | cons c rest =>
      by_cases hc : c.isDigit = true
      · rw [show takeDigits (m + 1) (c :: rest) =
            (match takeDigits m rest with
             | some (ds, r) => some (c :: ds, r)
             | none => none) from by simp [takeDigits, hc]] at h
        cases hr : takeDigits m rest with
        | none => rw [hr] at h; exact absurd h (by simp)
        | some pr =>
          obtain ⟨ds', r'⟩ := pr
          rw [hr] at h
          simp only [Option.some.injEq, Prod.mk.injEq] at h
          obtain ⟨h1, h2⟩ := h
          obtain ⟨hs, hl, hd⟩ := ih hr
          subst h2
          rw [← h1]
          refine ⟨by rw [hs]; rfl, by simp [hl], ?_⟩
          intro x hx
          rcases List.mem_cons.mp hx with rfl | hx2
          · exact hc
          · exact hd x hx2
      · rw [show takeDigits (m + 1) (c :: rest) = none from by simp [takeDigits, hc]] at h
        exact absurd h (by simp)

theorem skipSep_cons_mem {seps : List Char} {c : Char} (hc : c ∈ seps) (rest : Str) :
    skipSep seps (c :: rest) = rest := by
  simp [skipSep, hc]

theorem skipSep_cons_not_mem {seps : List Char} {c : Char} (hc : c ∉ seps) (rest : Str) :
    skipSep seps (c :: rest) = c :: rest := by
  simp [skipSep, hc]

theorem skipSep_sound (seps : List Char) (s : Str) :
    ∃ pre, s = pre ++ skipSep seps s ∧ optSep seps pre := by
  cases s with
  | nil => exact ⟨[], rfl, Or.inl rfl⟩
  | cons c rest =>
    by_cases hc : c ∈ seps
    · exact ⟨[c], by rw [skipSep_cons_mem hc]; rfl, Or.inr ⟨c, rfl, hc⟩⟩
    · exact ⟨[], by rw [skipSep_cons_not_mem hc]; rfl, Or.inl rfl⟩

/-- Skipping a date/time separator after an optional separator segment that
is followed by a digit: exactly the separator (if any) is consumed. -/
theorem skipSep_optSep_digit (seps : List Char) {s1 : Str} (h : optSep seps s1)
    {c : Char} (hc : c ∉ seps) (rest : Str) :
    skipSep seps (s1 ++ c :: rest) = c :: rest := by
  rcases h with rfl | ⟨d, rfl, hd⟩
  · simpa using skipSep_cons_not_mem hc rest
  · simpa using skipSep_cons_mem hd (c :: rest)

theorem parse_explicit_no_time (yy mo dd s1 s2 rest : Str)
    (hy : digitStr 4 yy) (hmo : digitStr 2 mo) (hdd : digitStr 2 dd)
    (h1 : optSep dateSeps s1) (h2 : optSep dateSeps s2)
    (hnt : takeDigits 6 (skipSep timeSeps rest) = none) :
    parse_date_from_filename (yy ++ s1 ++ mo ++ s2 ++ dd ++ rest) =
      some (yy, mo, dd, "00".data, "00".data, "00".data) := by
  obtain ⟨hylen, hydig⟩ := hy
  obtain ⟨hmolen, hmodig⟩ := hmo
  obtain ⟨hddlen, hdddig⟩ := hdd
  cases mo with
  | nil => exact absurd hmolen (by decide)
  | cons m mt =>
  cases dd with
  | nil => exact absurd hddlen (by decide)
  | cons d dt =>
  have hmdig : m.isDigit = true := hmodig m (List.mem_cons_self m mt)
  have hddig : d.isDigit = true := hdddig d (List.mem_cons_self d dt)
  have hshape :
      yy ++ s1 ++ (m :: mt) ++ s2 ++ (d :: dt) ++ rest =
        yy ++ (s1 ++ (m :: (mt ++ s2 ++ (d :: (dt ++ rest))))) := by
    simp [List.append_assoc]
  have e1 : takeDigits 4 (yy ++ (s1 ++ (m :: (mt ++ s2 ++ (d :: (dt ++ rest)))))) =
      some (yy, s1 ++ (m :: (mt ++ s2 ++ (d :: (dt ++ rest))))) := by
    have h := takeDigits_exact yy (s1 ++ (m :: (mt ++ s2 ++ (d :: (dt ++ rest))))) hydig
    rw [hylen] at h
    exact h
  have e2 : skipSep dateSeps (s1 ++ (m :: (mt ++ s2 ++ (d :: (dt ++ rest))))) =
      m :: (mt ++ s2 ++ (d :: (dt ++ rest))) :=
    skipSep_optSep_digit dateSeps h1 (digit_notin_dateSeps hmdig) _
  have e3 : takeDigits 2 (m :: (mt ++ s2 ++ (d :: (dt ++ rest)))) =
      some (m :: mt, s2 ++ (d :: (dt ++ rest))) := by
    have h := takeDigits_exact (m :: mt) (s2 ++ (d :: (dt ++ rest))) hmodig
    rw [hmolen] at h
    have hsh : (m :: mt) ++ (s2 ++ (d :: (dt ++ rest))) =
        m :: (mt ++ s2 ++ (d :: (dt ++ rest))) := by
      simp [List.append_assoc]
    rw [hsh] at h
    exact h
  have e4 : skipSep dateSeps (s2 ++ (d :: (dt ++ rest))) = d :: (dt ++ rest) :=
    skipSep_optSep_digit dateSeps h2 (digit_notin_dateSeps hddig) _
  have e5 : takeDigits 2 (d :: (dt ++ rest)) = some (d :: dt, rest) := by
    have h := takeDigits_exact (d :: dt) rest hdddig
    rw [hddlen] at h
    have hsh : (d :: dt) ++ rest = d :: (dt ++ rest) := by simp
    rw [hsh] at h
    exact h
  rw [hshape]
  simp only [parse_date_from_filename, e1, e2, e3, e4, e5, hnt]

theorem parse_explicit_time (yy mo dd tb s1 s2 s3 rest : Str)
    (hy : digitStr 4 yy) (hmo : digitStr 2 mo) (hdd : digitStr 2 dd)
    (htb : digitStr 6 tb)
    (h1 : optSep dateSeps s1) (h2 : optSep dateSeps s2) (h3 : optSep timeSeps s3) :
    parse_date_from_filename (yy ++ s1 ++ mo ++ s2 ++ dd ++ s3 ++ tb ++ rest) =
      some (yy, mo, dd, tb.take 2, (tb.drop 2).take 2, (tb.drop 4).take 2) := by
  obtain ⟨hylen, hydig⟩ := hy
  obtain ⟨hmolen, hmodig⟩ := hmo
  obtain ⟨hddlen, hdddig⟩ := hdd
  obtain ⟨htblen, htbdig⟩ := htb
  cases mo with
  | nil => exact absurd hmolen (by decide)
  | cons m mt =>
  cases dd with
  | nil => exact absurd hddlen (by decide)
  | cons d dt =>
  cases tb with
  | nil => exact absurd htblen (by decide)
  | cons t tt =>
  have hmdig : m.isDigit = true := hmodig m (List.mem_cons_self m mt)
  have hddig : d.isDigit = true := hdddig d (List.mem_cons_self d dt)
  have htdig : t.isDigit = true := htbdig t (List.mem_cons_self t tt)
  have hshape :
      yy ++ s1 ++ (m :: mt) ++ s2 ++ (d :: dt) ++ s3 ++ (t :: tt) ++ rest =
        yy ++ (s1 ++ (m :: (mt ++ s2 ++ (d :: (dt ++ s3 ++ (t :: (tt ++ rest))))))) := by
    simp [List.append_assoc]
  have e1 : takeDigits 4
      (yy ++ (s1 ++ (m :: (mt ++ s2 ++ (d :: (dt ++ s3 ++ (t :: (tt ++ rest)))))))) =
      some (yy, s1 ++ (m :: (mt ++ s2 ++ (d :: (dt ++ s3 ++ (t :: (tt ++ rest))))))) := by
    have h := takeDigits_exact yy
      (s1 ++ (m :: (mt ++ s2 ++ (d :: (dt ++ s3 ++ (t :: (tt ++ rest))))))) hydig
    rw [hylen] at h
    exact h
  have e2 : skipSep dateSeps
      (s1 ++ (m :: (mt ++ s2 ++ (d :: (dt ++ s3 ++ (t :: (tt ++ rest))))))) =
      m :: (mt ++ s2 ++ (d :: (dt ++ s3 ++ (t :: (tt ++ rest))))) :=
    skipSep_optSep_digit dateSeps h1 (digit_notin_dateSeps hmdig) _
  have e3 : takeDigits 2 (m :: (mt ++ s2 ++ (d :: (dt ++ s3 ++ (t :: (tt ++ rest)))))) =
      some (m :: mt, s2 ++ (d :: (dt ++ s3 ++ (t :: (tt ++ rest))))) := by
    have h := takeDigits_exact (m :: mt)
      (s2 ++ (d :: (dt ++ s3 ++ (t :: (tt ++ rest))))) hmodig
    rw [hmolen] at h
    have hsh : (m :: mt) ++ (s2 ++ (d :: (dt ++ s3 ++ (t :: (tt ++ rest))))) =
        m :: (mt ++ s2 ++ (d :: (dt ++ s3 ++ (t :: (tt ++ rest))))) := by
      simp [List.append_assoc]
    rw [hsh] at h
    exact h
  have e4 : skipSep dateSeps (s2 ++ (d :: (dt ++ s3 ++ (t :: (tt ++ rest))))) =
      d :: (dt ++ s3 ++ (t :: (tt ++ rest))) :=
    skipSep_optSep_digit dateSeps h2 (digit_notin_dateSeps hddig) _
  have e5 : takeDigits 2 (d :: (dt ++ s3 ++ (t :: (tt ++ rest)))) =
      some (d :: dt, s3 ++ (t :: (tt ++ rest))) := by
    have h := takeDigits_exact (d :: dt) (s3 ++ (t :: (tt ++ rest))) hdddig
    rw [hddlen] at h
    have hsh : (d :: dt) ++ (s3 ++ (t :: (tt ++ rest))) =
        d :: (dt ++ s3 ++ (t :: (tt ++ rest))) := by
      simp [List.append_assoc]
    rw [hsh] at h
    exact h
  have e6 : skipSep timeSeps (s3 ++ (t :: (tt ++ rest))) = t :: (tt ++ rest) :=
    skipSep_optSep_digit timeSeps h3 (digit_notin_timeSeps htdig) _
  have e7 : takeDigits 6 (t :: (tt ++ rest)) = some (t :: tt, rest) := by
    have h := takeDigits_exact (t :: tt) rest htbdig
    rw [htblen] at h
    have hsh : (t :: tt) ++ rest = t :: (tt ++ rest) := by simp
    rw [hsh] at h
    exact h
  rw [hshape]
  simp only [parse_date_from_filename, e1, e2, e3, e4, e5, e6, e7]

/-- C8: for media files lacking an embedded timestamp whose stem matches
the fallback pattern — a prefix match, so arbitrary trailing text may
follow — the resolved base name uses the parsed components verbatim with
no range validation, and when the optional 6-digit time block does not
match after the day (the remainder has no such block), the time defaults
to 00-00-00 with no sub-second suffix. -/
theorem c8_filename_fallback_verbatim :
    (∀ (mf : MediaFile) (yy mo dd s1 s2 rest : Str),
      mf.exifDate = none →
      digitStr 4 yy → digitStr 2 mo → digitStr 2 dd →
      optSep dateSeps s1 → optSep dateSeps s2 →
      takeDigits 6 (skipSep timeSeps rest) = none →
      pathStem mf.path = yy ++ s1 ++ mo ++ s2 ++ dd ++ rest →
      resolveName mf =
        some ((yy ++ '-' :: mo ++ '-' :: dd) ++
          '_' :: ("00".data ++ '-' :: "00".data ++ '-' :: "00".data))) ∧
    (∀ (mf : MediaFile) (yy mo dd tb s1 s2 s3 rest : Str),
      mf.exifDate = none →
      digitStr 4 yy → digitStr 2 mo → digitStr 2 dd → digitStr 6 tb →
      optSep dateSeps s1 → optSep dateSeps s2 → optSep timeSeps s3 →
      pathStem mf.path = yy ++ s1 ++ mo ++ s2 ++ dd ++ s3 ++ tb ++ rest →
      resolveName mf =
        some ((yy ++ '-' :: mo ++ '-' :: dd) ++
          '_' :: (tb.take 2 ++ '-' :: (tb.drop 2).take 2 ++ '-' :: (tb.drop 4).take 2))) := by
  constructor
  · intro mf yy mo dd s1 s2 rest hx hy hmo hdd h1 h2 hnt hstem
    have hp := parse_explicit_no_time yy mo dd s1 s2 rest hy hmo hdd h1 h2 hnt
    simp only [resolveName, hx, filename_base_name, hstem, hp]
  · intro mf yy mo dd tb s1 s2 s3 rest hx hy hmo hdd htb h1 h2 h3 hstem
    have hp := parse_explicit_time yy mo dd tb s1 s2 s3 rest hy hmo hdd htb h1 h2 h3
    simp only [resolveName, hx, filename_base_name, hstem, hp]

/-- Witness for C8: the out-of-range month "13" and day "44" in a stem
with trailing text "_vid" are accepted verbatim with the defaulted time,
and the spec's own example stem "2022-11-03_153000_vid" resolves to
"2022-11-03_15-30-00". -/
theorem c8_filename_fallback_verbatim_witness :
    resolveName ⟨"/t/20231344_vid.jpg".data, none, []⟩ =
      some ("2023-13-44_00-00-00".data) ∧
    resolveName ⟨"/t/2022-11-03_153000_vid.mp4".data, none, []⟩ =
      some ("2022-11-03_15-30-00".data) := by
  constructor
  · have h := c8_filename_fallback_verbatim.1 ⟨"/t/20231344_vid.jpg".data, none, []⟩
      ("2023".data) ("13".data) ("44".data) [] [] ("_vid".data) rfl
      ⟨by decide, by decide⟩ ⟨by decide, by decide⟩ ⟨by decide, by decide⟩
      (Or.inl rfl) (Or.inl rfl) (by rfl) (by decide)
    rw [h]
    decide
  · have h := c8_filename_fallback_verbatim.2
      ⟨"/t/2022-11-03_153000_vid.mp4".data, none, []⟩
      ("2022".data) ("11".data) ("03".data) ("153000".data)
      ("-".data) ("-".data) ("_".data) ("_vid".data) rfl
      ⟨by decide, by decide⟩ ⟨by decide, by decide⟩ ⟨by decide, by decide⟩
      ⟨by decide, by decide⟩
      (Or.inr ⟨'-', rfl, by decide⟩) (Or.inr ⟨'-', rfl, by decide⟩)
      (Or.inr ⟨'_', rfl, by decide⟩) (by decide)
    rw [h]
    decide

/-- C3 counterexample: the stem "19990101", whose leading four digits do
not begin with "20", is nevertheless accepted by the filename-fallback
stage, refuting the claimed "20"-prefix requirement. -/
theorem c3_non20_year_accepted :
    parse_date_from_filename ("19990101".data) =
      some ("1999".data, "01".data, "01".data, "00".data, "00".data, "00".data) ∧
    ("19990101".data).take 2 ≠ "20".data :=
  ⟨by rfl, by decide⟩

/-- C3 amended: the fallback stage accepts a stem only when it matches a
pattern of a 4-digit year (any digits, not only those beginning with
"20"), an optional separator, a 2-digit month, an optional separator, a
2-digit day, and an optional 6-digit time block with optional leading
separator; absent time defaults to 00:00:00. -/
theorem c3_fallback_pattern_soundness :
    (∀ (s yy mo dd hh mi ss : Str),
      parse_date_from_filename s = some (yy, mo, dd, hh, mi, ss) →
      ∃ s1 s2 rest,
        digitStr 4 yy ∧ digitStr 2 mo ∧ digitStr 2 dd ∧
        optSep dateSeps s1 ∧ optSep dateSeps s2 ∧
        s = yy ++ s1 ++ mo ++ s2 ++ dd ++ rest ∧
        ((hh = "00".data ∧ mi = "00".data ∧ ss = "00".data) ∨
          ∃ s3 tb rest2, digitStr 6 tb ∧ optSep timeSeps s3 ∧
            rest = s3 ++ tb ++ rest2 ∧
            hh = tb.take 2 ∧ mi = (tb.drop 2).take 2 ∧ ss = (tb.drop 4).take 2)) ∧
    parse_date_from_filename ("19990101".data) ≠ none := by
  constructor
  · intro s yy mo dd hh mi ss h
    cases h4 : takeDigits 4 s with
    | none => simp [parse_date_from_filename, h4] at h
    | some pr1 =>
      obtain ⟨y', r1⟩ := pr1
      obtain ⟨hs1, hy'len, hy'dig⟩ := takeDigits_sound h4
      obtain ⟨pre1, hr1, hpre1⟩ := skipSep_sound dateSeps r1
      cases h5 : takeDigits 2 (skipSep dateSeps r1) with
      | none => simp [parse_date_from_filename, h4, h5] at h
      | some pr2 =>
        obtain ⟨mo', r2⟩ := pr2
        obtain ⟨hs2, hmo'len, hmo'dig⟩ := takeDigits_sound h5
        obtain ⟨pre2, hr2, hpre2⟩ := skipSep_sound dateSeps r2
        cases h6 : takeDigits 2 (skipSep dateSeps r2) with
        | none => simp [parse_date_from_filename, h4, h5, h6] at h
        | some pr3 =>
          obtain ⟨dd', r3⟩ := pr3
          obtain ⟨hs3, hdd'len, hdd'dig⟩ := takeDigits_sound h6
          cases h7 : takeDigits 6 (skipSep timeSeps r3) with
          | none =>
            simp only [parse_date_from_filename, h4, h5, h6, h7] at h
            simp only [Option.some.injEq, Prod.mk.injEq] at h
            obtain ⟨hyy, hmo, hdd, hhh, hmi, hss⟩ := h
            subst hyy; subst hmo; subst hdd; subst hhh; subst hmi; subst hss
            refine ⟨pre1, pre2, r3, ⟨hy'len, hy'dig⟩, ⟨hmo'len, hmo'dig⟩,
              ⟨hdd'len, hdd'dig⟩, hpre1, hpre2, ?_, Or.inl ⟨rfl, rfl, rfl⟩⟩
            rw [hs1, hr1, hs2, hr2, hs3]
            simp [List.append_assoc]
          | some pr4 =>
            obtain ⟨tb', r4⟩ := pr4
            obtain ⟨hs4, htb'len, htb'dig⟩ := takeDigits_sound h7
            obtain ⟨pre3, hr3, hpre3⟩ := skipSep_sound timeSeps r3
            simp only [parse_date_from_filename, h4, h5, h6, h7] at h
            simp only [Option.some.injEq, Prod.mk.injEq] at h
            obtain ⟨hyy, hmo, hdd, hhh, hmi, hss⟩ := h
            subst hyy; subst hmo; subst hdd; subst hhh; subst hmi; subst hss
            refine ⟨pre1, pre2, r3, ⟨hy'len, hy'dig⟩, ⟨hmo'len, hmo'dig⟩,
              ⟨hdd'len, hdd'dig⟩, hpre1, hpre2, ?_,
              Or.inr ⟨pre3, tb', r4, ⟨htb'len, htb'dig⟩, hpre3, ?_, rfl, rfl, rfl⟩⟩
            · rw [hs1, hr1, hs2, hr2, hs3]
              simp [List.append_assoc]
            · rw [hr3, hs4]
              simp [List.append_assoc]
  · intro h
    rw [show parse_date_from_filename ("19990101".data) =
      some ("1999".data, "01".data, "01".data, "00".data, "00".data, "00".data) from by rfl] at h
    exact absurd h (by simp)

/-- Witness for the amended C3 at a concrete accepted stem. -/
theorem c3_fallback_pattern_soundness_witness :
    ∃ s1 s2 rest,
      digitStr 4 ("1999".data) ∧ digitStr 2 ("01".data) ∧ digitStr 2 ("01".data) ∧
      optSep dateSeps s1 ∧ optSep dateSeps s2 ∧
      ("19990101".data : Str) = "1999".data ++ s1 ++ "01".data ++ s2 ++ "01".data ++ rest ∧
      ((("00".data : Str) = "00".data ∧ ("00".data : Str) = "00".data ∧
        ("00".data : Str) = "00".data) ∨
        ∃ s3 tb rest2, digitStr 6 tb ∧ optSep timeSeps s3 ∧
          rest = s3 ++ tb ++ rest2 ∧
          ("00".data : Str) = tb.take 2 ∧ ("00".data : Str) = (tb.drop 2).take 2 ∧
          ("00".data : Str) = (tb.drop 4).take 2) :=
  c3_fallback_pattern_soundness.1 ("19990101".data) ("1999".data) ("01".data)
    ("01".data) ("00".data) ("00".data) ("00".data) (by rfl)

/-!
C5: the unique path allocator.
-/

theorem pathExists_iff (files : List Str) (p : Str) :
    pathExists files p = true ↔ p ∈ files := by
  simp [pathExists]

theorem digitVal_digitChar : ∀ d, d < 10 → digitVal (digitChar d) = d := by decide

theorem digitsVal_append_digit (a : Str) (c : Char) :
    digitsVal (a ++ [c]) = 10 * digitsVal a + digitVal c := by
  simp [digitsVal, List.foldl_append]

theorem digitsVal_natToDigitsAux :
    ∀ (fuel n : Nat), n < fuel → digitsVal (natToDigitsAux fuel n) = n := by
  intro fuel
  induction fuel with
  | zero => intro n h; omega
  | succ f ih =>
    intro n h
    by_cases h10 : n < 10
    · simp only [natToDigitsAux, if_pos h10]
      have hv := digitVal_digitChar n h10
      simp [digitsVal, hv]
    · have hpos : 0 < n := by omega
      have hlt : n / 10 < n := Nat.div_lt_self hpos (by omega)
      have hdiv : n / 10 < f := by omega
      simp only [natToDigitsAux, if_neg h10]
      rw [digitsVal_append_digit, ih _ hdiv,
        digitVal_digitChar (n % 10) (Nat.mod_lt _ (by omega))]
      omega

theorem natToDigits_inj : Function.Injective natToDigits := by
  intro m n h
  have hm : digitsVal (natToDigits m) = m :=
    digitsVal_natToDigitsAux (m + 1) m (by omega)
  have hn : digitsVal (natToDigits n) = n :=
    digitsVal_natToDigitsAux (n + 1) n (by omega)
  have h2 : digitsVal (natToDigits m) = digitsVal (natToDigits n) :=
    congrArg digitsVal h
  omega

theorem natToDigits_ne_nil (n : Nat) : natToDigits n ≠ [] := by
  show natToDigitsAux (n + 1) n ≠ []
  by_cases h : n < 10 <;> simp [natToDigitsAux, h]

theorem numberedPath_inj (dir base ext : Str) :
    Function.Injective (numberedPath dir base ext) := by
  intro j k h
  simp only [numberedPath, pathJoin] at h
  have h1 : base ++ '(' :: natToDigits j ++ ')' :: ext =
      base ++ '(' :: natToDigits k ++ ')' :: ext :=
    List.cons_injective (List.append_cancel_left h)
  have hlen : (natToDigits j).length = (natToDigits k).length := by
    have := congrArg List.length h1
    simp only [List.length_append, List.length_cons] at this
    omega
  have h2 : base ++ '(' :: natToDigits j = base ++ '(' :: natToDigits k := by
    have := List.append_inj h1 ?_
    · exact this.1
    · simp [hlen]
  have h3 : natToDigits j = natToDigits k :=
    List.cons_injective (List.append_cancel_left h2)
  exact natToDigits_inj h3

theorem numberedPath_ne_plain (dir base ext : Str) (k : Nat) :
    numberedPath dir base ext k ≠ pathJoin dir (base ++ ext) := by
  intro h
  have := congrArg List.length h
  simp only [numberedPath, pathJoin, List.length_append, List.length_cons] at this
  have hd : 0 < (natToDigits k).length :=
    List.length_pos.mpr (natToDigits_ne_nil k)
  omega

theorem exists_free_index (files : List Str) (dir base ext : Str) :
    ∃ j, 1 ≤ j ∧ j ≤ files.length + 1 ∧
      pathExists files (numberedPath dir base ext j) = false := by
  by_contra hcon
  push_neg at hcon
  have hmem : ∀ j ∈ Finset.Icc 1 (files.length + 1),
      numberedPath dir base ext j ∈ files.toFinset := by
    intro j hj
    simp only [Finset.mem_Icc] at hj
    have hne := hcon j hj.1 hj.2
    have hb : pathExists files (numberedPath dir base ext j) = true := by
      cases hpe : pathExists files (numberedPath dir base ext j) with
      | false => exact absurd hpe hne
      | true => rfl
    rw [List.mem_toFinset]
    exact (pathExists_iff files _).mp hb
  have hinj : Set.InjOn (numberedPath dir base ext)
      (Finset.Icc 1 (files.length + 1)) :=
    fun a _ b _ h => numberedPath_inj dir base ext h
  have hcard := Finset.card_le_card_of_injOn _ hmem hinj
  rw [Nat.card_Icc] at hcard
  have hle : files.toFinset.card ≤ files.length := List.toFinset_card_le files
  omega

theorem probeIndex_spec (files : List Str) (dir base ext : Str) :
    ∀ (fuel k : Nat),
      (∃ j, k ≤ j ∧ j < k + fuel ∧
        pathExists files (numberedPath dir base ext j) = false) →
      pathExists files
          (numberedPath dir base ext (probeIndex files dir base ext fuel k)) = false ∧
      k ≤ probeIndex files dir base ext fuel k ∧
      ∀ j, k ≤ j → j < probeIndex files dir base ext fuel k →
        pathExists files (numberedPath dir base ext j) = true := by
  intro fuel
  induction fuel with
  | zero =>
    intro k h
    obtain ⟨j, hj1, hj2, _⟩ := h
    omega
  | succ f ih =>
    intro k h
    obtain ⟨j, hj1, hj2, hjfree⟩ := h
    by_cases hk : pathExists files (numberedPath dir base ext k) = true
    · have hstep : probeIndex files dir base ext (f + 1) k =
          probeIndex files dir base ext f (k + 1) := by
        simp [probeIndex, hk]
      have hjk : j ≠ k := by
        intro he; rw [he] at hjfree; rw [hjfree] at hk; exact absurd hk (by simp)
      have hnext : ∃ j, k + 1 ≤ j ∧ j < (k + 1) + f ∧
          pathExists files (numberedPath dir base ext j) = false :=
        ⟨j, by omega, by omega, hjfree⟩
      obtain ⟨ha, hb, hc⟩ := ih (k + 1) hnext
      rw [hstep]
      refine ⟨ha, by omega, ?_⟩
      intro j' hj'1 hj'2
      by_cases hj'k : j' = k
      · rw [hj'k]; exact hk
      · exact hc j' (by omega) hj'2
    · have hkf : pathExists files (numberedPath dir base ext k) = false := by
        cases hpe : pathExists files (numberedPath dir base ext k) with
        | false => rfl
        | true => exact absurd hpe hk
      have hstep : probeIndex files dir base ext (f + 1) k = k := by
        simp [probeIndex, hkf]
      rw [hstep]
      exact ⟨hkf, le_refl k, fun j' h1 h2 => by omega⟩

/-- C5: the allocator returns `dir/base.ext` unchanged iff that path does
not exist or refers to the same underlying file as the original path;
otherwise it returns `dir/base(k).ext` for the lowest k >= 1 whose path
does not exist. -/
theorem c5_make_unique_path_spec (fs : FsView) (dir base ext : Str) (orig : Option Str) :
    (make_unique_path fs dir base ext orig = pathJoin dir (base ++ ext) ↔
      pathExists fs.files (pathJoin dir (base ++ ext)) = false ∨
        ∃ o, orig = some o ∧ fs.same (pathJoin dir (base ++ ext)) o = true) ∧
    (pathExists fs.files (pathJoin dir (base ++ ext)) = true →
      (∀ o, orig = some o → fs.same (pathJoin dir (base ++ ext)) o = false) →
      ∃ k, 1 ≤ k ∧
        make_unique_path fs dir base ext orig = numberedPath dir base ext k ∧
        pathExists fs.files (numberedPath dir base ext k) = false ∧
        ∀ j, 1 ≤ j → j < k → pathExists fs.files (numberedPath dir base ext j) = true) := by
  have hwindow := exists_free_index fs.files dir base ext
  have hprobe := probeIndex_spec fs.files dir base ext (fs.files.length + 1) 1
    (by obtain ⟨j, h1, h2, h3⟩ := hwindow; exact ⟨j, h1, by omega, h3⟩)
  cases hex : pathExists fs.files (pathJoin dir (base ++ ext)) with
  | false =>
    have hmk : make_unique_path fs dir base ext orig = pathJoin dir (base ++ ext) := by
      simp [make_unique_path, hex]
    constructor
    · simp [hmk]
    · intro hex2 _; exact absurd hex2 (by simp)
  | true =>
    cases orig with
    | none =>
      have hmk : make_unique_path fs dir base ext none =
          numberedPath dir base ext
            (probeIndex fs.files dir base ext (fs.files.length + 1) 1) := by
        simp [make_unique_path, hex]
      constructor
      · constructor
        · intro h
          rw [hmk] at h
          exact absurd h (numberedPath_ne_plain dir base ext _)
        · intro h
          rcases h with h | ⟨o, ho, _⟩
          · exact absurd h (by simp)
          · exact absurd ho (by simp)
      · intro _ _
        exact ⟨probeIndex fs.files dir base ext (fs.files.length + 1) 1,
          hprobe.2.1, hmk, hprobe.1, fun j h1 h2 => hprobe.2.2 j h1 h2⟩
    | some o =>
      cases hsame : fs.same (pathJoin dir (base ++ ext)) o with
      | true =>
        have hmk : make_unique_path fs dir base ext (some o) =
            pathJoin dir (base ++ ext) := by
          simp [make_unique_path, hex, hsame]
        constructor
        · simp only [hmk, true_iff]
          exact Or.inr ⟨o, rfl, hsame⟩
        · intro _ hno
          have := hno o rfl
          rw [hsame] at this
          exact absurd this (by simp)
      | false =>
        have hmk : make_unique_path fs dir base ext (some o) =
            numberedPath dir base ext
              (probeIndex fs.files dir base ext (fs.files.length + 1) 1) := by
          simp [make_unique_path, hex, hsame]
        constructor
        · constructor
          · intro h
            rw [hmk] at h
            exact absurd h (numberedPath_ne_plain dir base ext _)
          · intro h
            rcases h with h | ⟨o', ho', hs'⟩
            · exact absurd h (by simp)
            · have : o' = o := by
                injection ho' with he; exact he.symm
              rw [this] at hs'
              rw [hsame] at hs'
              exact absurd hs' (by simp)
        · intro _ _
          exact ⟨probeIndex fs.files dir base ext (fs.files.length + 1) 1,
            hprobe.2.1, hmk, hprobe.1, fun j h1 h2 => hprobe.2.2 j h1 h2⟩

/-- Witness for C5: with `a.jpg` and `a(1).jpg` both present and no
original path, the allocator must produce the numbered path with the
lowest free index (here 2). -/
theorem c5_make_unique_path_spec_witness :
    ∃ k, 1 ≤ k ∧
      make_unique_path ⟨["/t/a.jpg".data, "/t/a(1).jpg".data], fun p q => p == q⟩
          ("/t".data) ("a".data) (".jpg".data) none =
        numberedPath ("/t".data) ("a".data) (".jpg".data) k ∧
      pathExists ["/t/a.jpg".data, "/t/a(1).jpg".data]
        (numberedPath ("/t".data) ("a".data) (".jpg".data) k) = false ∧
      ∀ j, 1 ≤ j → j < k →
        pathExists ["/t/a.jpg".data, "/t/a(1).jpg".data]
          (numberedPath ("/t".data) ("a".data) (".jpg".data) j) = true :=
  (c5_make_unique_path_spec
    ⟨["/t/a.jpg".data, "/t/a(1).jpg".data], fun p q => p == q⟩
    ("/t".data) ("a".data) (".jpg".data) none).2 (by decide)
    (fun o h => Option.noConfusion h)

/-!
C6, C9 and C1: the per-file pipeline.
-/

/-- If a file resolves and its allocated destination equals its current
path, processing it changes neither the filesystem nor the Matched or
Unmatched logs (only the error log may grow from a stage-1 parse error). -/
theorem processOne_noop (env : PhotoEnv) (st : PState) (mf : MediaFile) (base : Str)
    (hres : resolveName mf = some base)
    (hdest : make_unique_path ⟨st.files, env.same⟩ (pathDirname mf.path) base
        (pyLower (pathSuffix mf.path)) (some mf.path) = mf.path) :
    ∃ st', processOne env st mf = Except.ok st' ∧
      st'.files = st.files ∧ st'.matchedLog = st.matchedLog ∧
      st'.unmatchedLog = st.unmatchedLog := by
  cases hx : mf.exifDate with
  | none =>
    simp only [resolveName, hx] at hres
    refine ⟨st, ?_, rfl, rfl, rfl⟩
    simp [processOne, hx, fallbackStep, hres, finishRename, hdest]
  | some d =>
    by_cases hde : d.isEmpty
    · simp only [resolveName, hx, if_pos hde] at hres
      refine ⟨st, ?_, rfl, rfl, rfl⟩
      simp [processOne, hx, hde, fallbackStep, hres, finishRename, hdest]
    · cases hb : exif_base_name d mf.subSec with
      | some b =>
        simp only [resolveName, hx, if_neg hde, hb, Option.some.injEq] at hres
        subst hres
        refine ⟨st, ?_, rfl, rfl, rfl⟩
        simp [processOne, hx, hde, hb, finishRename, hdest]
      | none =>
        simp only [resolveName, hx, if_neg hde, hb] at hres
        refine ⟨{ st with errorLog :=
          st.errorLog ++ [PhotoErr.exifParse (pathBasename mf.path)] }, ?_, rfl, rfl, rfl⟩
        simp [processOne, hx, hde, hb, fallbackStep, hres, finishRename, hdest]

/-- C6: a media file whose allocated destination equals its current path
causes no move and no Matched record, and a whole run over such files
returns with the filesystem and the Matched (and Unmatched) logs
unchanged — re-running the pipeline on its own output is a no-op. -/
theorem c6_noop_rename_no_matched_record (env : PhotoEnv) :
    ∀ (l : List MediaFile) (st : PState),
      (∀ mf ∈ l, ∃ base, resolveName mf = some base ∧
        make_unique_path ⟨st.files, env.same⟩ (pathDirname mf.path) base
          (pyLower (pathSuffix mf.path)) (some mf.path) = mf.path) →
      ∃ st', processAll env st l = Except.ok st' ∧
        st'.files = st.files ∧ st'.matchedLog = st.matchedLog ∧
        st'.unmatchedLog = st.unmatchedLog := by
  intro l
  induction l with
  | nil => intro st _; exact ⟨st, rfl, rfl, rfl, rfl⟩
  | cons mf rest ih =>
    intro st h
    obtain ⟨base, hres, hdest⟩ := h mf (List.mem_cons_self mf rest)
    obtain ⟨st1, hst1, hf, hm, hu⟩ := processOne_noop env st mf base hres hdest
    have hrest : ∀ mf' ∈ rest, ∃ b, resolveName mf' = some b ∧
        make_unique_path ⟨st1.files, env.same⟩ (pathDirname mf'.path) b
          (pyLower (pathSuffix mf'.path)) (some mf'.path) = mf'.path := by
      intro mf' hm'
      obtain ⟨b, h1, h2⟩ := h mf' (List.mem_cons_of_mem mf hm')
      exact ⟨b, h1, by rw [hf]; exact h2⟩
    obtain ⟨st2, hst2, hf2, hm2, hu2⟩ := ih st1 hrest
    refine ⟨st2, ?_, by rw [hf2, hf], by rw [hm2, hm], by rw [hu2, hu]⟩
    simp only [processAll, hst1]
    exact hst2

/-- Witness for C6: an already-renamed file resolves to its own name, and
the run leaves the state unchanged. -/
theorem c6_noop_rename_no_matched_record_witness :
    ∃ st', processAll
        ⟨"/t/unmatched".data, (fun p q => p == q), (fun _ _ => true)⟩
        ⟨[("/t/2023-05-06_12-34-56.jpg".data)], [], [], []⟩
        [⟨"/t/2023-05-06_12-34-56.jpg".data,
          some ("2023:05:06 12:34:56".data), []⟩] = Except.ok st' ∧
      st'.files = [("/t/2023-05-06_12-34-56.jpg".data)] ∧
      st'.matchedLog = [] ∧ st'.unmatchedLog = [] :=
  c6_noop_rename_no_matched_record
    ⟨"/t/unmatched".data, (fun p q => p == q), (fun _ _ => true)⟩
    [⟨"/t/2023-05-06_12-34-56.jpg".data, some ("2023:05:06 12:34:56".data), []⟩]
    ⟨[("/t/2023-05-06_12-34-56.jpg".data)], [], [], []⟩
    (by
      intro mf hm
      rw [List.mem_singleton] at hm
      subst hm
      exact ⟨"2023-05-06_12-34-56".data, by decide, by decide⟩)

/-- C9: when the metadata read returns a nonempty timestamp whose parse
fails, the resolver logs an error and falls through to the filename
stage; the file reaches the unmatched branch only if the filename stage
also fails. -/
theorem c9_exif_parse_failure_falls_through
    (env : PhotoEnv) (st : PState) (mf : MediaFile) (d : Str)
    (hd : mf.exifDate = some d) (hne : d.isEmpty = false)
    (hfail : exif_base_name d mf.subSec = none) :
    processOne env st mf =
      fallbackStep env
        { st with errorLog := st.errorLog ++ [PhotoErr.exifParse (pathBasename mf.path)] }
        mf ∧
    (∀ b, filename_base_name (pathStem mf.path) = some b →
      processOne env st mf =
        finishRename env
          { st with errorLog := st.errorLog ++ [PhotoErr.exifParse (pathBasename mf.path)] }
          mf b) ∧
    (filename_base_name (pathStem mf.path) = none →
      processOne env st mf =
        moveUnmatched env
          { st with errorLog := st.errorLog ++ [PhotoErr.exifParse (pathBasename mf.path)] }
          mf) := by
  have h1 : processOne env st mf =
      fallbackStep env
        { st with errorLog := st.errorLog ++ [PhotoErr.exifParse (pathBasename mf.path)] }
        mf := by
    simp [processOne, hd, hne, hfail]
  refine ⟨h1, ?_, ?_⟩
  · intro b hb
    rw [h1]
    simp [fallbackStep, hb]
  · intro hb
    rw [h1]
    simp [fallbackStep, hb]

/-- Witness for C9: an unparseable nonempty CreateDate ("banana") on a
file whose stem parses; processing equals the filename-stage rename with
the parse error logged. -/
theorem c9_exif_parse_failure_falls_through_witness :
    processOne
      ⟨"/t/unmatched".data, (fun p q => p == q), (fun _ _ => false)⟩
      ⟨[("/t/20230101.jpg".data)], [], [], []⟩
      ⟨"/t/20230101.jpg".data, some ("banana".data), []⟩ =
    finishRename
      ⟨"/t/unmatched".data, (fun p q => p == q), (fun _ _ => false)⟩
      ⟨[("/t/20230101.jpg".data)], [], [],
        [PhotoErr.exifParse ("20230101.jpg".data)]⟩
      ⟨"/t/20230101.jpg".data, some ("banana".data), []⟩
      ("2023-01-01_00-00-00".data) := by
  have h := (c9_exif_parse_failure_falls_through
    ⟨"/t/unmatched".data, (fun p q => p == q), (fun _ _ => false)⟩
    ⟨[("/t/20230101.jpg".data)], [], [], []⟩
    ⟨"/t/20230101.jpg".data, some ("banana".data), []⟩
    ("banana".data) rfl (by decide) (by rfl)).2.1
    ("2023-01-01_00-00-00".data) (by rfl)
  exact h

/-- C1 (claim violated by the code): a failing in-place rename of a
resolved media file is not caught — the exception aborts the whole batch,
and the second file of the batch is never processed.  The unmatched-move
branch does catch its failures, so this contradicts the claimed
"any filesystem failure at any stage is caught". -/
theorem c1_uncaught_rename_failure_aborts_batch :
    processAll
      ⟨"/t/unmatched".data, (fun p q => p == q), (fun _ _ => true)⟩
      ⟨[("/t/a.jpg".data), ("/t/b.jpg".data)], [], [], []⟩
      [⟨"/t/a.jpg".data, some ("2023:05:06 12:34:56".data), []⟩,
       ⟨"/t/b.jpg".data, some ("2023:05:06 12:34:56".data), []⟩] =
      Except.error (PFailure.renameRaised ("/t/a.jpg".data)
        ("/t/2023-05-06_12-34-56.jpg".data)) := by
  rfl

/-!
C7: sidecar matcher strategy order.
-/

/-- C7: the matcher tries its normalization strategies in order and the
first strategy with a containment hit wins — when the raw base name has no
hit anywhere and the parenthesis-stripped name has one, the result is the
first parenthesis-stripped hit; in particular "IMG_1234(1)" matches a
candidate set containing "IMG_1234.json" through strategy 2. -/
theorem c7_sidecar_strategy_order :
    (∀ (mp : Str) (cs : List Str) (j : Str),
      cs.find? (sidecarHit (pyLower (splitext (pathBasename mp)).1)) = none →
      cs.find? (sidecarHit (stripParenSuffix (pyLower (splitext (pathBasename mp)).1))) =
        some j →
      matchSidecar mp cs = some j) ∧
    (∀ (cs : List Str) (j : Str), j ∈ cs →
      pathBasename j = "IMG_1234.json".data →
      (∀ c ∈ cs, sidecarHit ("img_1234(1)".data) c = false) →
      ∃ c, matchSidecar ("/t/IMG_1234(1).jpg".data) cs = some c ∧
        sidecarHit ("img_1234".data) c = true) := by
  have horder : ∀ (mp : Str) (cs : List Str) (j : Str),
      cs.find? (sidecarHit (pyLower (splitext (pathBasename mp)).1)) = none →
      cs.find? (sidecarHit (stripParenSuffix (pyLower (splitext (pathBasename mp)).1))) =
        some j →
      matchSidecar mp cs = some j := by
    intro mp cs j h1 h2
    simp only [matchSidecar, h1, h2]
  refine ⟨horder, ?_⟩
  intro cs j hj hbase hall
  have hhit : sidecarHit ("img_1234".data) j = true := by
    simp only [sidecarHit]
    rw [hbase]
    decide
  have hsome : (cs.find? (sidecarHit ("img_1234".data))).isSome :=
    List.find?_isSome.mpr ⟨j, hj, hhit⟩
  obtain ⟨c, hc⟩ := Option.isSome_iff_exists.mp hsome
  have h1 : cs.find? (sidecarHit ("img_1234(1)".data)) = none :=
    List.find?_eq_none.mpr fun x hx => by simp [hall x hx]
  exact ⟨c, horder ("/t/IMG_1234(1).jpg".data) cs c h1 hc, List.find?_some hc⟩

/-- Witness for C7 at the spec's own example candidate set. -/
theorem c7_sidecar_strategy_order_witness :
    ∃ c, matchSidecar ("/t/IMG_1234(1).jpg".data) [("/t/IMG_1234.json".data)] =
        some c ∧
      sidecarHit ("img_1234".data) c = true :=
  c7_sidecar_strategy_order.2 [("/t/IMG_1234.json".data)] ("/t/IMG_1234.json".data)
    (List.mem_singleton.mpr rfl) (by decide) (by decide)

/-!
C2: sidecar consolidation moves exactly the used sidecars.
-/

/-- C2 counterexample: a sidecar that the matcher does match (strategy 1)
but whose timestamp extraction yields the non-digit "null" never enters
the used set, so the consolidation step moves nothing — the matched
sidecar is left in place, contradicting "every matched sidecar is moved". -/
theorem c2_matched_sidecar_not_moved :
    matchSidecar ("/t/a.jpg".data) [("/t/a.json".data)] = some ("/t/a.json".data) ∧
    recoverUsed
      ⟨fun _ => some ("image/jpeg".data), fun _ => some ("null".data),
       fun _ => true, [("/t/a.json".data)], [("/t/a.jpg".data)]⟩ = [] ∧
    consolidationMoves ("/t/done".data)
      (recoverUsed
        ⟨fun _ => some ("image/jpeg".data), fun _ => some ("null".data),
         fun _ => true, [("/t/a.json".data)], [("/t/a.jpg".data)]⟩) = [] :=
  ⟨by rfl, by rfl, by rfl⟩

theorem contains_iff_mem_str {l : List Str} {a : Str} :
    l.contains a = true ↔ a ∈ l :=
  pathExists_iff l a

theorem perm_count {l1 l2 : List Str} (h : List.Perm l1 l2) (a : Str) :
    l1.count a = l2.count a := by
  induction h with
  | nil => rfl
  | cons x _ ih => simp [List.count_cons, ih]
  | swap x y l => simp [List.count_cons]; omega
  | trans _ _ ih1 ih2 => rw [ih1, ih2]

theorem count_nodup_mem (l : List Str) (hnd : l.Nodup) (a : Str) :
    l.count a = if a ∈ l then 1 else 0 := by
  induction l with
  | nil => simp
  | cons x xs ih =>
    rw [List.count_cons]
    have hx : x ∉ xs := (List.nodup_cons.mp hnd).1
    have ihx := ih (List.nodup_cons.mp hnd).2
    by_cases hax : a = x
    · subst hax
      have hnm : a ∉ xs := hx
      simp [ihx, hnm]
    · have hxa : ¬x = a := fun h => hax h.symm
      simp [ihx, hax, hxa, List.mem_cons]

/-- One loop iteration either leaves the used set unchanged or inserts a
fresh sidecar path that was matched, exists, and yielded a valid
timestamp. -/
theorem recStep_used_cases (env : RecEnv) (acc : List Str × List RecLog) (mp : Str) :
    (recStep env acc mp).1 = acc.1 ∨
    ∃ p j, recoverExtCorrect env mp = some p ∧
      matchSidecar p env.jsonPaths = some j ∧ env.isFile j = true ∧
      (∃ ts, env.jq j = some ts ∧ pyIsDigit ts = true) ∧
      (recStep env acc mp).1 = j :: acc.1 ∧ j ∉ acc.1 := by
  cases hec : recoverExtCorrect env mp with
  | none => left; simp [recStep, hec]
  | some p =>
    cases hms : matchSidecar p env.jsonPaths with
    | none => left; simp [recStep, hec, hms]
    | some j =>
      cases hif : env.isFile j with
      | false => left; simp [recStep, hec, hms, hif]
      | true =>
        cases hjq : env.jq j with
        | none => left; simp [recStep, hec, hms, hif, hjq]
        | some ts =>
          cases hdig : pyIsDigit ts with
          | false => left; simp [recStep, hec, hms, hif, hjq, hdig]
          | true =>
            cases hmem : acc.1.contains j with
            | true =>
              left
              have hj : j ∈ acc.1 := contains_iff_mem_str.mp hmem
              simp [recStep, hec, hms, hif, hjq, hdig, hj]
            | false =>
              right
              have hj : j ∉ acc.1 := by
                intro hm
                rw [contains_iff_mem_str.mpr hm] at hmem
                exact absurd hmem (by simp)
              refine ⟨p, j, rfl, hms, hif, ⟨ts, hjq, hdig⟩, ?_, hj⟩
              simp [recStep, hec, hms, hif, hjq, hdig, hj]

/-- Fold invariant: the used list stays duplicate-free, and every element
was successfully matched and extracted for some processed media path. -/
theorem recoverFold_invariant (env : RecEnv) :
    ∀ (l : List Str) (acc : List Str × List RecLog),
      acc.1.Nodup →
      (l.foldl (recStep env) acc).1.Nodup ∧
      ∀ j, j ∈ (l.foldl (recStep env) acc).1 →
        j ∈ acc.1 ∨ ∃ mp ∈ l, ∃ p, recoverExtCorrect env mp = some p ∧
          matchSidecar p env.jsonPaths = some j ∧ env.isFile j = true ∧
          ∃ ts, env.jq j = some ts ∧ pyIsDigit ts = true := by
  intro l
  induction l with
  | nil => intro acc h; exact ⟨h, fun j hj => Or.inl hj⟩
  | cons mp rest ih =>
    intro acc h
    have hstep := recStep_used_cases env acc mp
    have hnd1 : ((recStep env acc mp).1).Nodup := by
      rcases hstep with h1 | ⟨p, j, _, _, _, _, heq, hnot⟩
      · rw [h1]; exact h
      · rw [heq]; exact List.Nodup.cons hnot h
    obtain ⟨hnd2, hmem2⟩ := ih (recStep env acc mp) hnd1
    refine ⟨hnd2, ?_⟩
    intro j hj
    rcases hmem2 j hj with hin | ⟨mp', hmp', rest'⟩
    · rcases hstep with h1 | ⟨p, j', hec, hms, hif, hts, heq, _⟩
      · rw [h1] at hin; exact Or.inl hin
      · rw [heq] at hin
        rcases List.mem_cons.mp hin with rfl | hin2
        · exact Or.inr ⟨mp, List.mem_cons_self mp rest, p, hec, hms, hif, hts⟩
        · exact Or.inl hin2
    · exact Or.inr ⟨mp', List.mem_cons_of_mem mp hmp', rest'⟩

/-- C2 amended: the consolidation step moves, exactly once each, precisely
the sidecars in the used set — those matched to a processed media file
whose timestamp extraction succeeded with a valid integer; every other
sidecar (including matched-but-failed ones) is never a move source. -/
theorem c2_used_sidecars_moved_exactly_once (env : RecEnv) (done j : Str) :
    ((consolidationMoves done (recoverUsed env)).map Prod.fst).count j =
      (if j ∈ recoverUsed env then 1 else 0) ∧
    (j ∈ recoverUsed env →
      ∃ mp ∈ env.mediaPaths, ∃ p, recoverExtCorrect env mp = some p ∧
        matchSidecar p env.jsonPaths = some j ∧ env.isFile j = true ∧
        ∃ ts, env.jq j = some ts ∧ pyIsDigit ts = true) := by
  have hinv := recoverFold_invariant env env.mediaPaths ([], []) List.nodup_nil
  have hnd : (recoverUsed env).Nodup := hinv.1
  constructor
  · have hmapfst : (consolidationMoves done (recoverUsed env)).map Prod.fst =
        pySorted (recoverUsed env) := by
      have hfun : (Prod.fst ∘ fun j : Str => (j, pathJoin done (pathBasename j))) =
          fun j : Str => j := rfl
      rw [consolidationMoves, List.map_map, hfun, List.map_id']
    rw [hmapfst]
    have hperm : List.Perm (pySorted (recoverUsed env)) (recoverUsed env) :=
      List.perm_insertionSort _ _
    rw [perm_count hperm j]
    exact count_nodup_mem (recoverUsed env) hnd j
  · intro hmem
    rcases hinv.2 j hmem with h | h
    · exact absurd h (List.not_mem_nil j)
    · exact h

/-- Witness for C2 (amended) at a run whose single sidecar is used. -/
theorem c2_used_sidecars_moved_exactly_once_witness :
    ((consolidationMoves ("/t/done".data)
        (recoverUsed
          ⟨fun _ => some ("image/jpeg".data), fun _ => some ("1680000000".data),
           fun _ => true, [("/t/a.json".data)], [("/t/a.jpg".data)]⟩)).map Prod.fst).count
      ("/t/a.json".data) = 1 ∧
    ∃ mp ∈ [("/t/a.jpg".data)], ∃ p,
      recoverExtCorrect
        ⟨fun _ => some ("image/jpeg".data), fun _ => some ("1680000000".data),
         fun _ => true, [("/t/a.json".data)], [("/t/a.jpg".data)]⟩ mp = some p ∧
      matchSidecar p [("/t/a.json".data)] = some ("/t/a.json".data) ∧
      (true : Bool) = true ∧
      ∃ ts, some ("1680000000".data) = some ts ∧ pyIsDigit ts = true := by
  have h := c2_used_sidecars_moved_exactly_once
    ⟨fun _ => some ("image/jpeg".data), fun _ => some ("1680000000".data),
     fun _ => true, [("/t/a.json".data)], [("/t/a.jpg".data)]⟩
    ("/t/done".data) ("/t/a.json".data)
  refine ⟨?_, h.2 (by decide)⟩
  rw [h.1]
  decide

/-!
C10: lexicographic order facts and the consolidation move semantics.
-/

theorem lexLe_total : ∀ (a b : Str), lexLe a b = true ∨ lexLe b a = true := by
  intro a
  induction a with
  | nil => intro b; left; rfl
  | cons x xs ih =>
    intro b
    cases b with
    | nil => right; rfl
    | cons y ys =>
      by_cases hxy : x = y
      · subst hxy
        rcases ih ys with h | h
        · left; simpa [lexLe] using h
        · right; simpa [lexLe] using h
      · rcases lt_trichotomy x y with h | h | h
        · left; simp [lexLe, hxy, h]
        · exact absurd h hxy
        · right
          have hyx : ¬y = x := fun he => hxy he.symm
          simp [lexLe, hyx, h]

theorem lexLe_trans : ∀ {a b c : Str},
    lexLe a b = true → lexLe b c = true → lexLe a c = true := by
  intro a
  induction a with
  | nil => intro b c _ _; rfl
  | cons x xs ih =>
    intro b c h1 h2
    cases b with
    | nil => simp [lexLe] at h1
    | cons y ys =>
      cases c with
      | nil => simp [lexLe] at h2
      | cons z zs =>
        by_cases hxy : x = y
        · subst hxy
          by_cases hxz : x = z
          · subst hxz
            simp only [lexLe, if_pos rfl] at h1 h2 ⊢
            exact ih h1 h2
          · simp only [lexLe, if_neg hxz] at h2 ⊢
            exact h2
        · by_cases hyz : y = z
          · subst hyz
            simp only [lexLe, if_neg hxy] at h1 ⊢
            exact h1
          · simp only [lexLe, if_neg hxy, if_neg hyz, decide_eq_true_eq] at h1 h2
            by_cases hxz : x = z
            · subst hxz
              exact absurd (lt_trans h1 h2) (lt_irrefl x)
            · simp only [lexLe, if_neg hxz, decide_eq_true_eq]
              exact lt_trans h1 h2

theorem lexLe_antisymm : ∀ {a b : Str},
    lexLe a b = true → lexLe b a = true → a = b := by
  intro a
  induction a with
  | nil =>
    intro b h1 h2
    cases b with
    | nil => rfl
    | cons y ys => simp [lexLe] at h2
  | cons x xs ih =>
    intro b h1 h2
    cases b with
    | nil => simp [lexLe] at h1
    | cons y ys =>
      by_cases hxy : x = y
      · subst hxy
        simp only [lexLe, if_pos rfl] at h1 h2
        rw [ih h1 h2]
      · have hyx : ¬y = x := fun h => hxy h.symm
        simp only [lexLe, if_neg hxy, decide_eq_true_eq] at h1
        simp only [lexLe, if_neg hyx, decide_eq_true_eq] at h2
        exact absurd (lt_trans h1 h2) (lt_irrefl x)

theorem pySorted_pairwise (l : List Str) :
    List.Pairwise (fun a b => lexLe a b = true) (pySorted l) :=
  @List.sorted_insertionSort Str (fun a b => lexLe a b = true) _
    ⟨lexLe_total⟩ ⟨fun _ _ _ h1 h2 => lexLe_trans h1 h2⟩ l

theorem pySorted_perm (l : List Str) : List.Perm (pySorted l) l :=
  List.perm_insertionSort _ l

theorem lastWriteSrc_foldl_init (q : Str) :
    ∀ (ms : List (Str × Str)) (init : Option Str),
      ms.foldl (fun acc m => if m.2 = q then some m.1 else acc) init =
        match lastWriteSrc ms q with
        | some s => some s
        | none => init := by
  intro ms
  induction ms with
  | nil => intro init; rfl
  | cons m rest ih =>
    intro init
    show rest.foldl _ (if m.2 = q then some m.1 else init) = _
    rw [ih]
    have hrest : lastWriteSrc (m :: rest) q =
        match lastWriteSrc rest q with
        | some s => some s
        | none => if m.2 = q then some m.1 else none := by
      show rest.foldl _ (if m.2 = q then some m.1 else none) = _
      rw [ih]
    rw [hrest]
    cases lastWriteSrc rest q with
    | some s => rfl
    | none => by_cases hm : m.2 = q <;> simp [hm]

theorem lastWriteSrc_cons (m : Str × Str) (rest : List (Str × Str)) (q : Str) :
    lastWriteSrc (m :: rest) q =
      match lastWriteSrc rest q with
      | some s => some s
      | none => if m.2 = q then some m.1 else none := by
  show rest.foldl _ (if m.2 = q then some m.1 else none) = _
  rw [lastWriteSrc_foldl_init]

theorem lastWriteSrc_mem :
    ∀ (ms : List (Str × Str)) (q s : Str), lastWriteSrc ms q = some s →
      ∃ m ∈ ms, m.1 = s ∧ m.2 = q := by
  intro ms
  induction ms with
  | nil => intro q s h; exact absurd h (by simp [lastWriteSrc])
  | cons m rest ih =>
    intro q s h
    rw [lastWriteSrc_cons] at h
    cases hr : lastWriteSrc rest q with
    | some s' =>
      rw [hr] at h
      obtain ⟨n, hn, h1, h2⟩ := ih q s' hr
      simp only [Option.some.injEq] at h
      subst h
      exact ⟨n, List.mem_cons_of_mem m hn, h1, h2⟩
    | none =>
      rw [hr] at h
      by_cases hm : m.2 = q
      · rw [if_pos hm] at h
        simp only [Option.some.injEq] at h
        exact ⟨m, List.mem_cons_self m rest, h, hm⟩
      · rw [if_neg hm] at h
        exact absurd h (by simp)

theorem lastWriteSrc_eq_none :
    ∀ (ms : List (Str × Str)) (q : Str), (∀ m ∈ ms, (m : Str × Str).2 ≠ q) →
      lastWriteSrc ms q = none := by
  intro ms
  induction ms with
  | nil => intro q _; rfl
  | cons m rest ih =>
    intro q h
    rw [lastWriteSrc_cons, ih q fun n hn => h n (List.mem_cons_of_mem m hn),
      if_neg (h m (List.mem_cons_self m rest))]

theorem lastWriteSrc_append (a b : List (Str × Str)) (q : Str) :
    lastWriteSrc (a ++ b) q =
      match lastWriteSrc b q with
      | some s => some s
      | none => lastWriteSrc a q := by
  show (a ++ b).foldl _ none = _
  rw [List.foldl_append]
  show b.foldl _ (lastWriteSrc a q) = _
  rw [lastWriteSrc_foldl_init]

theorem lookupFs_cons (k : Str) (v : Nat) (fs : Fs2) (q : Str) :
    lookupFs ((k, v) :: fs) q = if q = k then some v else lookupFs fs q := by
  by_cases h : q = k
  · simp [lookupFs, List.lookup, h]
  · have hbeq : (q == k) = false := beq_eq_false_iff_ne.mpr h
    simp [lookupFs, List.lookup, hbeq, h]

theorem lookupFs_eq_none_of_keys (fs : Fs2) (q : Str)
    (h : ∀ e ∈ fs, (e : Str × Nat).1 ≠ q) : lookupFs fs q = none := by
  induction fs with
  | nil => rfl
  | cons e rest ih =>
    obtain ⟨k, v⟩ := e
    rw [lookupFs_cons]
    have hk : ¬q = k := fun he =>
      h (k, v) (List.mem_cons_self _ rest) (by simp [he])
    rw [if_neg hk]
    exact ih fun e' he' => h e' (List.mem_cons_of_mem _ he')

theorem lookupFs_filter_keeps (fs : Fs2) (q : Str) (p : Str × Nat → Bool)
    (hkeep : ∀ e ∈ fs, (e : Str × Nat).1 = q → p e = true) :
    lookupFs (fs.filter p) q = lookupFs fs q := by
  induction fs with
  | nil => rfl
  | cons e rest ih =>
    obtain ⟨k, v⟩ := e
    have ihr := ih fun e' he' => hkeep e' (List.mem_cons_of_mem _ he')
    by_cases hq : q = k
    · have hp : p (k, v) = true :=
        hkeep (k, v) (List.mem_cons_self _ rest) (by simp [hq])
      rw [List.filter_cons_of_pos hp, lookupFs_cons, lookupFs_cons, if_pos hq, if_pos hq]
    · cases hp : p (k, v) with
      | true =>
        rw [List.filter_cons_of_pos hp, lookupFs_cons, lookupFs_cons,
          if_neg hq, if_neg hq]
        exact ihr
      | false =>
        rw [List.filter_cons_of_neg (by simp [hp]), lookupFs_cons, if_neg hq]
        exact ihr

theorem lookupFs_osReplace (fs : Fs2) (m : Str × Str) (v : Nat)
    (hv : lookupFs fs m.1 = some v) (q : Str) :
    lookupFs (osReplace fs m) q =
      if q = m.2 then some v else if q = m.1 then none else lookupFs fs q := by
  simp only [osReplace, hv]
  rw [lookupFs_cons]
  by_cases h2 : q = m.2
  · rw [if_pos h2, if_pos h2]
  · rw [if_neg h2, if_neg h2]
    by_cases h1 : q = m.1
    · rw [if_pos h1]
      apply lookupFs_eq_none_of_keys
      intro e he
      have hmf := List.mem_filter.mp he
      have hne := hmf.2
      simp only [Bool.and_eq_true, Bool.not_eq_true', beq_eq_false_iff_ne,
        decide_eq_true_eq] at hne
      rw [h1]
      exact hne.1
    · rw [if_neg h1]
      apply lookupFs_filter_keeps
      intro e _ he1
      simp only [Bool.and_eq_true, Bool.not_eq_true', beq_eq_false_iff_ne,
        decide_eq_true_eq]
      rw [he1]
      exact ⟨h1, h2⟩

theorem lookupFs_applyMoves :
    ∀ (ms : List (Str × Str)) (fs : Fs2) (q : Str),
      (ms.map Prod.fst).Nodup →
      (∀ m ∈ ms, ∀ n ∈ ms, (m : Str × Str).1 ≠ (n : Str × Str).2) →
      (∀ m ∈ ms, ∃ v, lookupFs fs (m : Str × Str).1 = some v) →
      lookupFs (applyMoves fs ms) q =
        match lastWriteSrc ms q with
        | some s => lookupFs fs s
        | none =>
          if q ∈ ms.map Prod.fst then none else lookupFs fs q := by
  intro ms
  induction ms with
  | nil =>
    intro fs q _ _ _
    simp [applyMoves, lastWriteSrc]
  | cons m0 rest ih =>
    intro fs q hnd hsd hex
    obtain ⟨v0, hv0⟩ := hex m0 (List.mem_cons_self m0 rest)
    have hnd' : (rest.map Prod.fst).Nodup := by
      simp only [List.map_cons, List.nodup_cons] at hnd
      exact hnd.2
    have hm0fst : m0.1 ∉ rest.map Prod.fst := by
      simp only [List.map_cons, List.nodup_cons] at hnd
      exact hnd.1
    have hsd' : ∀ m ∈ rest, ∀ n ∈ rest, (m : Str × Str).1 ≠ (n : Str × Str).2 :=
      fun m hm n hn =>
        hsd m (List.mem_cons_of_mem m0 hm) n (List.mem_cons_of_mem m0 hn)
    have hlook : ∀ n ∈ rest, lookupFs (osReplace fs m0) (n : Str × Str).1 =
        lookupFs fs (n : Str × Str).1 := by
      intro n hn
      rw [lookupFs_osReplace fs m0 v0 hv0]
      have hne2 : n.1 ≠ m0.2 :=
        hsd n (List.mem_cons_of_mem m0 hn) m0 (List.mem_cons_self m0 rest)
      have hne1 : n.1 ≠ m0.1 := by
        intro he
        exact hm0fst (he ▸ List.mem_map_of_mem Prod.fst hn)
      rw [if_neg hne2, if_neg hne1]
    have hex' : ∀ n ∈ rest, ∃ v, lookupFs (osReplace fs m0) (n : Str × Str).1 = some v := by
      intro n hn
      obtain ⟨v, hv⟩ := hex n (List.mem_cons_of_mem m0 hn)
      exact ⟨v, by rw [hlook n hn]; exact hv⟩
    have happly : applyMoves fs (m0 :: rest) = applyMoves (osReplace fs m0) rest := rfl
    rw [happly, ih (osReplace fs m0) q hnd' hsd' hex']
    cases hlast : lastWriteSrc rest q with
    | some s =>
      have hcons : lastWriteSrc (m0 :: rest) q = some s := by
        simp only [lastWriteSrc_cons, hlast]
      obtain ⟨n, hn, hn1, _⟩ := lastWriteSrc_mem rest q s hlast
      simp only [hcons]
      rw [← hn1]
      exact hlook n hn
    | none =>
      by_cases hq2 : m0.2 = q
      · have hcons : lastWriteSrc (m0 :: rest) q = some m0.1 := by
          simp only [lastWriteSrc_cons, hlast, if_pos hq2]
        simp only [hcons]
        have hqrest : q ∉ rest.map Prod.fst := by
          intro hq
          obtain ⟨n, hn, hn1⟩ := List.mem_map.mp hq
          exact hsd n (List.mem_cons_of_mem m0 hn) m0 (List.mem_cons_self m0 rest)
            (by rw [hn1, hq2])
        rw [if_neg hqrest, lookupFs_osReplace fs m0 v0 hv0, if_pos hq2.symm]
        exact hv0.symm
      · have hcons : lastWriteSrc (m0 :: rest) q = none := by
          simp only [lastWriteSrc_cons, hlast, if_neg hq2]
        simp only [hcons]
        by_cases hq1 : q = m0.1
        · have hqrest : q ∉ rest.map Prod.fst := by
            rw [hq1]; exact hm0fst
          have hin : q ∈ (m0 :: rest).map Prod.fst := by
            simp only [List.map_cons, List.mem_cons]
            exact Or.inl hq1
          rw [if_neg hqrest, lookupFs_osReplace fs m0 v0 hv0,
            if_neg (fun he => hq2 he.symm), if_pos hq1, if_pos hin]
        · by_cases hqr : q ∈ rest.map Prod.fst
          · have hin : q ∈ (m0 :: rest).map Prod.fst := by
              simp only [List.map_cons, List.mem_cons]
              exact Or.inr hqr
            rw [if_pos hqr, if_pos hin]
          · have hnotin : q ∉ (m0 :: rest).map Prod.fst := by
              simp only [List.map_cons, List.mem_cons]
              rintro (h | h)
              · exact hq1 h
              · exact hqr h
            rw [if_neg hqr, if_neg hnotin, lookupFs_osReplace fs m0 v0 hv0,
              if_neg (fun he => hq2 he.symm), if_neg hq1]

theorem pathJoin_right_inj {d a b : Str} (h : pathJoin d a = pathJoin d b) : a = b :=
  List.cons_injective (List.append_cancel_left h)

theorem consolidationMoves_map_fst (done : Str) (used : List Str) :
    (consolidationMoves done used).map Prod.fst = pySorted used := by
  have hfun : (Prod.fst ∘ fun j : Str => (j, pathJoin done (pathBasename j))) =
      fun j : Str => j := rfl
  rw [consolidationMoves, List.map_map, hfun, List.map_id']

/-- C10: two used sidecars with the same base filename are both sent to
the same, non-collision-checked destination in the done folder; after the
consolidation loop the destination holds the content of the sidecar later
in sorted order, and the earlier one's path is gone — it was silently
overwritten. -/
theorem c10_consolidation_basename_collision_overwrite
    (done : Str) (used : List Str) (fs : Fs2) (j1 j2 : Str) (v1 v2 : Nat)
    (hnd : used.Nodup)
    (h1 : j1 ∈ used) (h2 : j2 ∈ used) (hne : j1 ≠ j2)
    (hb : pathBasename j1 = pathBasename j2)
    (honly : ∀ j ∈ used, pathBasename j = pathBasename j1 → j = j1 ∨ j = j2)
    (hlt : lexLe j1 j2 = true)
    (hv1 : lookupFs fs j1 = some v1) (hv2 : lookupFs fs j2 = some v2)
    (hall : ∀ j ∈ used, ∃ v, lookupFs fs j = some v)
    (hnodst : ∀ j ∈ used, ∀ j' ∈ used, j ≠ pathJoin done (pathBasename j')) :
    pathJoin done (pathBasename j1) = pathJoin done (pathBasename j2) ∧
    lookupFs (consolidate done used fs) (pathJoin done (pathBasename j1)) = some v2 ∧
    lookupFs (consolidate done used fs) j1 = none := by
  have hdst : pathJoin done (pathBasename j1) = pathJoin done (pathBasename j2) := by
    rw [hb]
  have hmemL : ∀ z, z ∈ pySorted used ↔ z ∈ used := fun z => (pySorted_perm used).mem_iff
  have hLnd : (pySorted used).Nodup := (pySorted_perm used).nodup_iff.mpr hnd
  -- master-lemma prerequisites for the move list
  have hndms : ((consolidationMoves done used).map Prod.fst).Nodup := by
    rw [consolidationMoves_map_fst]; exact hLnd
  have hsdms : ∀ m ∈ consolidationMoves done used,
      ∀ n ∈ consolidationMoves done used, (m : Str × Str).1 ≠ (n : Str × Str).2 := by
    intro m hm n hn
    obtain ⟨a, ha, rfl⟩ := List.mem_map.mp hm
    obtain ⟨b, hbm, rfl⟩ := List.mem_map.mp hn
    exact hnodst a ((hmemL a).mp ha) b ((hmemL b).mp hbm)
  have hexms : ∀ m ∈ consolidationMoves done used,
      ∃ v, lookupFs fs (m : Str × Str).1 = some v := by
    intro m hm
    obtain ⟨a, ha, rfl⟩ := List.mem_map.mp hm
    exact hall a ((hmemL a).mp ha)
  -- position j1 before j2 in the sorted list
  have hj1L : j1 ∈ pySorted used := (hmemL j1).mpr h1
  obtain ⟨s, t, hst⟩ := List.append_of_mem hj1L
  have hj2L : j2 ∈ pySorted used := (hmemL j2).mpr h2
  have hj2t : j2 ∈ t := by
    rw [hst] at hj2L
    rcases List.mem_append.mp hj2L with hs | hcons
    · have hpw := pySorted_pairwise used
      rw [hst] at hpw
      have h21 := (List.pairwise_append.mp hpw).2.2 j2 hs j1 (List.mem_cons_self j1 t)
      exact absurd (lexLe_antisymm hlt h21) hne
    · rcases List.mem_cons.mp hcons with he | ht
      · exact absurd he.symm hne
      · exact ht
  obtain ⟨u, w, htw⟩ := List.append_of_mem hj2t
  have hLdecomp : pySorted used = s ++ j1 :: (u ++ j2 :: w) := by rw [hst, htw]
  -- nodup facts along the decomposition
  have hndtail : (j1 :: (u ++ j2 :: w)).Nodup := by
    rw [hLdecomp] at hLnd
    exact hLnd.of_append_right
  have hj1tail : j1 ∉ u ++ j2 :: w := (List.nodup_cons.mp hndtail).1
  have hndmid : (j2 :: w).Nodup :=
    ((List.nodup_cons.mp hndtail).2).of_append_right
  have hj2w : j2 ∉ w := (List.nodup_cons.mp hndmid).1
  have hmemused : ∀ z ∈ s ++ j1 :: (u ++ j2 :: w), z ∈ used := by
    intro z hz
    rw [← hLdecomp] at hz
    exact (hmemL z).mp hz
  -- compute the last writer to the shared destination
  have hkey : lastWriteSrc (consolidationMoves done used)
      (pathJoin done (pathBasename j1)) = some j2 := by
    have hmoves : consolidationMoves done used =
        (s.map fun j => (j, pathJoin done (pathBasename j))) ++
          (j1, pathJoin done (pathBasename j1)) ::
          ((u.map fun j => (j, pathJoin done (pathBasename j))) ++
            (j2, pathJoin done (pathBasename j2)) ::
            (w.map fun j => (j, pathJoin done (pathBasename j)))) := by
      rw [consolidationMoves, hLdecomp]
      simp [List.map_append]
    have hwnone : lastWriteSrc (w.map fun j => (j, pathJoin done (pathBasename j)))
        (pathJoin done (pathBasename j1)) = none := by
      apply lastWriteSrc_eq_none
      intro m hm
      obtain ⟨z, hz, rfl⟩ := List.mem_map.mp hm
      intro hzeq
      have hzb : pathBasename z = pathBasename j1 := pathJoin_right_inj hzeq
      have hzused : z ∈ used := hmemused z (by
        apply List.mem_append.mpr; right
        apply List.mem_cons_of_mem
        apply List.mem_append.mpr; right
        exact List.mem_cons_of_mem j2 hz)
      rcases honly z hzused hzb with rfl | rfl
      · exact hj1tail (List.mem_append.mpr (Or.inr (List.mem_cons_of_mem j2 hz)))
      · exact hj2w hz
    have hj2cons : lastWriteSrc
        ((j2, pathJoin done (pathBasename j2)) ::
          (w.map fun j => (j, pathJoin done (pathBasename j))))
        (pathJoin done (pathBasename j1)) = some j2 := by
      simp only [lastWriteSrc_cons, hwnone, if_pos hdst.symm]
    have hmid : lastWriteSrc
        ((u.map fun j => (j, pathJoin done (pathBasename j))) ++
          (j2, pathJoin done (pathBasename j2)) ::
          (w.map fun j => (j, pathJoin done (pathBasename j))))
        (pathJoin done (pathBasename j1)) = some j2 := by
      rw [lastWriteSrc_append]
      simp only [hj2cons]
    have hj1cons : lastWriteSrc
        ((j1, pathJoin done (pathBasename j1)) ::
          ((u.map fun j => (j, pathJoin done (pathBasename j))) ++
            (j2, pathJoin done (pathBasename j2)) ::
            (w.map fun j => (j, pathJoin done (pathBasename j)))))
        (pathJoin done (pathBasename j1)) = some j2 := by
      simp only [lastWriteSrc_cons, hmid]
    rw [hmoves, lastWriteSrc_append]
    simp only [hj1cons]
  have hmain := lookupFs_applyMoves (consolidationMoves done used) fs
    (pathJoin done (pathBasename j1)) hndms hsdms hexms
  have hmain2 := lookupFs_applyMoves (consolidationMoves done used) fs j1
    hndms hsdms hexms
  refine ⟨hdst, ?_, ?_⟩
  · show lookupFs (applyMoves fs (consolidationMoves done used))
      (pathJoin done (pathBasename j1)) = some v2
    rw [hmain]
    simp only [hkey]
    exact hv2
  · show lookupFs (applyMoves fs (consolidationMoves done used)) j1 = none
    rw [hmain2]
    have hj1none : lastWriteSrc (consolidationMoves done used) j1 = none := by
      apply lastWriteSrc_eq_none
      intro m hm
      obtain ⟨z, hz, rfl⟩ := List.mem_map.mp hm
      exact fun he => hnodst j1 h1 z ((hmemL z).mp hz) he.symm
    simp only [hj1none]
    have hj1src : j1 ∈ (consolidationMoves done used).map Prod.fst := by
      rw [consolidationMoves_map_fst]
      exact hj1L
    rw [if_pos hj1src]

/-- Witness for C10: two used sidecars named x.json in different
directories; after consolidation the done-folder entry holds the content
of /b/x.json (later in sort order) and /a/x.json is gone. -/
theorem c10_consolidation_basename_collision_overwrite_witness :
    pathJoin ("/t/done".data) (pathBasename ("/a/x.json".data)) =
      pathJoin ("/t/done".data) (pathBasename ("/b/x.json".data)) ∧
    lookupFs
      (consolidate ("/t/done".data) [("/a/x.json".data), ("/b/x.json".data)]
        [(("/a/x.json".data), 1), (("/b/x.json".data), 2)])
      (pathJoin ("/t/done".data) (pathBasename ("/a/x.json".data))) = some 2 ∧
    lookupFs
      (consolidate ("/t/done".data) [("/a/x.json".data), ("/b/x.json".data)]
        [(("/a/x.json".data), 1), (("/b/x.json".data), 2)])
      ("/a/x.json".data) = none :=
  c10_consolidation_basename_collision_overwrite
    ("/t/done".data) [("/a/x.json".data), ("/b/x.json".data)]
    [(("/a/x.json".data), 1), (("/b/x.json".data), 2)]
    ("/a/x.json".data) ("/b/x.json".data) 1 2
    (by decide) (by decide) (by decide) (by decide) (by decide)
    (by decide) (by decide) (by decide) (by decide)
    (by
      intro j hj
      fin_cases hj
      · exact ⟨1, rfl⟩
      · exact ⟨2, rfl⟩)
    (by decide)

/-!
Concrete evaluations of the embedded functions on small inputs.
-/

example : pySplit ' ' ("2023:05:06 12:34:56".data) =
    ["2023:05:06".data, "12:34:56".data] := by decide

example : pathStem ("/a/b/IMG_1234(1).jpg".data) = "IMG_1234(1)".data := by decide

example : pathSuffix ("/a/b/x.JPG".data) = ".JPG".data := by decide

example : pathBasename ("/a/b/x.json".data) = "x.json".data := by decide

example : pathDirname ("/a/b/x.json".data) = "/a/b".data := by decide

example : splitext ("/t/photo.heic".data) = ("/t/photo".data, ".heic".data) := by decide

example : pyIn ("img_1234".data) ("img_1234.json".data) = true := by decide

example : pyIsDigit ("1680000000".data) = true := by decide

example : pyIsDigit ("null".data) = false := by decide

example : parse_date_from_filename ("2022-11-03_153000_vid".data) =
    some ("2022".data, "11".data, "03".data, "15".data, "30".data, "00".data) := by rfl

example : parse_date_from_filename ("19990101".data) =
    some ("1999".data, "01".data, "01".data, "00".data, "00".data, "00".data) := by rfl

example : parse_date_from_filename ("IMG_1234".data) = none := by rfl

example : parse_date_from_filename ("2023.05.06-123456x".data) =
    some ("2023".data, "05".data, "06".data, "12".data, "34".data, "56".data) := by rfl

example : parse_date_from_filename ("20230101.123456".data) =
    some ("2023".data, "01".data, "01".data, "00".data, "00".data, "00".data) := by rfl

example : exif_base_name ("2023:05:06 12:34:56".data) ("789".data) =
    some ("2023-05-06_12-34-56-78".data) := by decide

example : exif_base_name ("2023:05:06 12:34:56".data) ("7".data) =
    some ("2023-05-06_12-34-56-70".data) := by decide

example : exif_base_name ("2023:05:06".data) [] = none := by decide

example : natToDigits 1 = "1".data := by decide

example : natToDigits 207 = "207".data := by decide

example :
    make_unique_path ⟨["/t/a.jpg".data], fun p q => p == q⟩
      ("/t".data) ("a".data) (".jpg".data) none = "/t/a(1).jpg".data := by decide

example :
    make_unique_path ⟨["/t/a.jpg".data, "/t/a(1).jpg".data], fun p q => p == q⟩
      ("/t".data) ("a".data) (".jpg".data) none = "/t/a(2).jpg".data := by decide

example :
    make_unique_path ⟨["/t/a.jpg".data], fun p q => p == q⟩
      ("/t".data) ("a".data) (".jpg".data) (some ("/t/a.jpg".data)) =
      "/t/a.jpg".data := by decide

example : stripParenSuffix ("img_1234(1)".data) = "img_1234".data := by decide

example : stripParenSuffix ("a(b)(c)".data) = "a(b)".data := by decide

example : stripParenSuffix ("a((b)".data) = "a".data := by decide

example : stripParenSuffix ("img_1234".data) = "img_1234".data := by decide

example : matchSidecar ("/t/IMG_1234(1).jpg".data) [("/t/IMG_1234.json".data)] =
    some ("/t/IMG_1234.json".data) := by decide

example : matchSidecar ("/t/photo-edited.jpg".data) [("/t/photo.jpg.json".data)] =
    some ("/t/photo.jpg.json".data) := by decide

example : pySorted [("/b/x.json".data), ("/a/x.json".data)] =
    [("/a/x.json".data), ("/b/x.json".data)] := by decide

example :
    processOne
      ⟨"/t/unmatched".data, (fun p q => p == q), (fun _ _ => false)⟩
      ⟨[("/t/photo.jpg".data)], [], [], []⟩
      ⟨"/t/photo.jpg".data, some ("2023:05:06 12:34:56".data), "789".data⟩ =
    Except.ok ⟨[("/t/2023-05-06_12-34-56-78.jpg".data)],
               [(("photo.jpg".data), ("2023-05-06_12-34-56-78.jpg".data))], [], []⟩ := by
  rfl
